import Mathlib

/-!
Shallow embedding of the BIP300/301 drivechain enforcer core.

The embedding follows the block-connection state machine of
`src/validator/task/mod.rs` (handlers `handle_m1_propose_sidechain` ..
`handle_m8`, `connect_block`, `disconnect_block`) together with the legacy
task loop of `src/bip300/task.rs` (`connect_block`, `task_loop_once`), which
share the same per-message handlers.

Modelling conventions:
  * The embedded store (`Dbs`) represents each named LMDB table as an
    association list; `alGet`/`alPut`/`alDelete` model `try_get`/`put`/`delete`
    of the typed database wrapper.  Iteration order is the list order.
  * 32-byte hashes (block hashes, description hashes, m6ids) are modelled as
    `Nat`;  hash functions are out of scope (the spec treats the low-level
    parser/digest crate as a pure decoder library) and are modelled from the
    spec as injective encodings.
  * Rust `panic!`/`todo!`/out-of-bounds indexing is modelled by an explicit
    `panic` result constructor.
  * Machine integers (u64 amounts, u16 vote counts, u32 heights) are modelled
    as `Nat`; the only subtraction sites (`height - proposal_height`,
    `new_total_value - old_total_value`) are used by the code only when the
    minuend is at least the subtrahend, which theorems carry as hypotheses.
-/

namespace Bip300Enforcer

/-- Association-list lookup; models `Database::try_get` (a missing key is
`none`, not an error). -/
def alGet {K V : Type} [DecidableEq K] (l : List (K × V)) (k : K) : Option V :=
  match l.find? (fun p => decide (p.1 = k)) with
  | some p => some p.2
  | none => none

/-- Association-list insert/overwrite; models `Database::put`. -/
def alPut {K V : Type} [DecidableEq K] (l : List (K × V)) (k : K) (v : V) :
    List (K × V) :=
  match l with
  | [] => [(k, v)]
  | p :: rest => if p.1 = k then (k, v) :: rest else p :: alPut rest k v

/-- Association-list delete; models `Database::delete`. -/
def alDelete {K V : Type} [DecidableEq K] (l : List (K × V)) (k : K) :
    List (K × V) :=
  l.filter (fun p => decide (p.1 ≠ k))

/-- Writing a batch of rows into an association list in order (the final
row-update loop of `handle_failed_m6ids`). -/
def alPutAll {K V : Type} [DecidableEq K] (l : List (K × V))
    (ups : List (K × V)) : List (K × V) :=
  ups.foldl (fun acc kv => alPut acc kv.1 kv.2) l

/-- Bitcoin outpoint `(txid, vout)`; the txid is an opaque hash modelled as
`Nat`. -/
structure OutPoint where
  txid : Nat
  vout : Nat
deriving DecidableEq

/-- Transaction output: a value in satoshis and a script, modelled as a list
of byte values. -/
structure TxOut where
  value : Nat
  script_pubkey : List Nat
deriving DecidableEq

/-- Transaction.  `txid` models `compute_txid()` (hashing is out of scope, so
the id is carried as a field); `input` carries each input's
`previous_output`, the only input data the enforcer reads. -/
structure Transaction where
  txid : Nat
  input : List OutPoint
  output : List TxOut
deriving DecidableEq

/-- Block, with the header fields the enforcer reads (`block_hash()`,
`prev_blockhash`, `work()`) inlined as opaque values. -/
structure Block where
  block_hash : Nat
  prev_blockhash : Nat
  header_work : Nat
  txdata : List Transaction
deriving DecidableEq

/-- Sidechain proposal payload (`types.rs` / validator `SidechainProposal`). -/
structure SidechainProposal where
  sidechain_number : Nat
  description : List Nat
deriving DecidableEq

/-- Proposal status (validator `SidechainProposalStatus`): `activation_height`
is absent while the sidechain is merely proposed.  The legacy `bip300` types
carry the same fields inline. -/
structure SidechainProposalStatus where
  vote_count : Nat
  proposal_height : Nat
  activation_height : Option Nat
deriving DecidableEq

/-- A (proposed or activated) sidechain. -/
structure Sidechain where
  proposal : SidechainProposal
  status : SidechainProposalStatus
deriving DecidableEq

/-- Pending withdrawal-bundle entry. -/
structure PendingM6id where
  m6id : Nat
  vote_count : Nat
deriving DecidableEq

/-- Current treasury tip of a sidechain slot. -/
structure Ctip where
  outpoint : OutPoint
  value : Nat
deriving DecidableEq

/-- Historical treasury-transaction record. -/
structure TreasuryUtxo where
  outpoint : OutPoint
  address : Option (List Nat)
  total_value : Nat
  previous_total_value : Nat
deriving DecidableEq

/-- Deposit event payload. -/
structure Deposit where
  sidechain_id : Nat
  sequence_number : Nat
  outpoint : OutPoint
  output : TxOut
deriving DecidableEq

/-- Kind of a withdrawal-bundle event. -/
inductive WithdrawalBundleEventKind
  | submitted
  | failed
  | succeeded
deriving DecidableEq

/-- Withdrawal-bundle event. -/
structure WithdrawalBundleEvent where
  sidechain_id : Nat
  m6id : Nat
  kind : WithdrawalBundleEventKind
deriving DecidableEq

/-- Per-block info stored under the block hash by the validator's
`connect_block`.  `bmm_commitments` preserves insertion order
(`LinkedHashMap`). -/
structure BlockInfo where
  bmm_commitments : List (Nat × Nat)
  coinbase_txid : Nat
  deposits : List Deposit
  sidechain_proposals : List (Nat × SidechainProposal)
  withdrawal_bundle_events : List WithdrawalBundleEvent
deriving DecidableEq

def WITHDRAWAL_BUNDLE_MAX_AGE : Nat := 10

def WITHDRAWAL_BUNDLE_INCLUSION_THRESHOLD : Nat := WITHDRAWAL_BUNDLE_MAX_AGE / 2

def USED_SIDECHAIN_SLOT_PROPOSAL_MAX_AGE : Nat := WITHDRAWAL_BUNDLE_MAX_AGE

def USED_SIDECHAIN_SLOT_ACTIVATION_THRESHOLD : Nat :=
  USED_SIDECHAIN_SLOT_PROPOSAL_MAX_AGE / 2

def UNUSED_SIDECHAIN_SLOT_PROPOSAL_MAX_AGE : Nat := 10

def UNUSED_SIDECHAIN_SLOT_ACTIVATION_MAX_FAILS : Nat := 5

def UNUSED_SIDECHAIN_SLOT_ACTIVATION_THRESHOLD : Nat :=
  UNUSED_SIDECHAIN_SLOT_PROPOSAL_MAX_AGE - UNUSED_SIDECHAIN_SLOT_ACTIVATION_MAX_FAILS

def ABSTAIN_TWO_BYTES : Nat := 65535

def ALARM_TWO_BYTES : Nat := 65534

def OP_RETURN : Nat := 106

def OP_DRIVECHAIN : Nat := 180

def OP_TRUE : Nat := 81

def M1_TAG : Nat := 209

def M2_TAG : Nat := 210

def M3_TAG : Nat := 211

def M4_TAG : Nat := 212

def M7_TAG : Nat := 215

def M8_TAG : Nat := 216

/-- Modelled from the spec: `SHA256d`, the double-SHA256 digest used for
sidechain description hashes.  The digest crate is out of scope (treated as a
pure decoder/digest library), so it is modelled as an injective encoding of
the byte list into `Nat`. -/
def sha256d (data : List Nat) : Nat :=
  data.foldl (fun a b => a * 257 + b + 1) 0

/-- Modelled from the spec: `m6_to_id`, the deterministic identifier of a
withdrawal bundle, a hash of the transaction "tailored to withdrawal
identity (dependent on old total value so that the ID binds the withdrawing
balance)".  Modelled as an injective pairing of the transaction id with the
old total value. -/
def m6_to_id (transaction : Transaction) (old_total_value : Nat) : Nat :=
  Nat.pair transaction.txid old_total_value

/-- Modelled from the spec: the OP_DRIVECHAIN output parser.  The script
"encodes `sidechain_number`; remainder must end with a truthy terminator,
else ignored".  Modelled as a three-byte script: opcode, slot number, truthy
terminator. -/
def parse_op_drivechain : List Nat → Option Nat
  | [op, n, term] => if op = OP_DRIVECHAIN ∧ term = OP_TRUE then some n else none
  | _ => none

/-- Parsed M8 BMM request (`sidechain_number || sidechain_block_hash ||
prev_mainchain_block_hash`). -/
structure BmmRequest where
  sidechain_number : Nat
  sidechain_block_hash : Nat
  prev_mainchain_block_hash : Nat
deriving DecidableEq

/-- Modelled from the spec: the M8 BMM-request output parser; the two 32-byte
hash fields are abstracted to one list element each. -/
def parse_m8_bmm_request : List Nat → Option BmmRequest
  | [tag, n, scbh, prev] =>
      if tag = M8_TAG then some ⟨n, scbh, prev⟩ else none
  | _ => none

/-- M4 ack-bundles message variants. -/
inductive M4AckBundles
  | leadingBy50
  | repeatPrevious
  | oneByte (upvotes : List Nat)
  | twoBytes (upvotes : List Nat)
deriving DecidableEq

/-- Coinbase messages M1/M2/M3/M4/M7. -/
inductive CoinbaseMessage
  | m1ProposeSidechain (sidechain_number : Nat) (data : List Nat)
  | m2AckSidechain (sidechain_number : Nat) (data_hash : Nat)
  | m3ProposeBundle (sidechain_number : Nat) (bundle_txid : Nat)
  | m4AckBundles (m4 : M4AckBundles)
  | m7BmmAccept (sidechain_number : Nat) (sidechain_block_hash : Nat)
deriving DecidableEq

/-- Modelled from the spec: the coinbase message parser ("a tag followed by
fields", section 6).  Multi-byte hash fields are abstracted to one list
element each; M4 `OneByte` upvotes must be byte values. -/
def parse_coinbase_script : List Nat → Option CoinbaseMessage
  | tag :: rest =>
      if tag = M1_TAG then
        match rest with
        | n :: data => some (.m1ProposeSidechain n data)
        | _ => none
      else if tag = M2_TAG then
        match rest with
        | [n, dh] => some (.m2AckSidechain n dh)
        | _ => none
      else if tag = M3_TAG then
        match rest with
        | [n, txid] => some (.m3ProposeBundle n txid)
        | _ => none
      else if tag = M4_TAG then
        match rest with
        | 0 :: [] => some (.m4AckBundles .leadingBy50)
        | 1 :: [] => some (.m4AckBundles .repeatPrevious)
        | 2 :: upvotes =>
            if upvotes.all (fun v => decide (v < 256)) then
              some (.m4AckBundles (.oneByte upvotes))
            else none
        | 3 :: upvotes =>
            if upvotes.all (fun v => decide (v < 65536)) then
              some (.m4AckBundles (.twoBytes upvotes))
            else none
        | _ => none
      else if tag = M7_TAG then
        match rest with
        | [n, h] => some (.m7BmmAccept n h)
        | _ => none
      else none
  | [] => none

/-- The embedded store: one field per named table the block-connection path
touches.  The single-cell unit-keyed tables (`current_chain_tip`,
`current_block_height`) are modelled as `Option` fields. -/
structure Dbs where
  description_hash_to_sidechain : List (Nat × Sidechain)
  sidechain : List (Nat × Sidechain)
  pending_m6ids : List (Nat × List PendingM6id)
  ctip : List (Nat × Ctip)
  treasury_utxo_count : List (Nat × Nat)
  slot_sequence_to_treasury_utxo : List ((Nat × Nat) × TreasuryUtxo)
  block_info : List (Nat × BlockInfo)
  cumulative_work : List (Nat × Nat)
  current_chain_tip : Option Nat
  block_height_to_accepted_bmm_block_hashes : List (Nat × List Nat)
  block_hash_to_deposits : List (Nat × List Deposit)
  current_block_height : Option Nat
deriving DecidableEq

/-- The store of a fresh data directory: every table empty. -/
def initialDbs : Dbs :=
  ⟨[], [], [], [], [], [], [], [], none, [], [], none⟩

/-- The validation errors of block connection (store-level `get`-on-missing
errors are folded into `dbError`). -/
inductive BlockErr
  | inactiveSidechain (sidechain_number : Nat)
  | oldCtipUnspent (sidechain_number : Nat)
  | invalidM6
  | notAcceptedByMiners
  | bmmRequestExpired
  | multipleBmmBlocks (sidechain_number : Nat)
  | dbError
deriving DecidableEq

/-- Result of a fallible step that does not thread partial store state:
Rust `Result`, with `panic` for `panic!`/`todo!`/out-of-bounds indexing. -/
inductive Res (α : Type)
  | ok (val : α)
  | err (e : BlockErr)
  | panic
deriving DecidableEq

/-- Result of a step inside the per-block write transaction: on `err` the
transaction's partial state (all writes made before the error) is carried,
matching a Rust `&mut RwTxn` at the moment the error is returned. -/
inductive LoopRes (α : Type)
  | ok (val : α)
  | err (e : BlockErr) (s : Dbs)
  | panic
deriving DecidableEq

/-- Pending list of a slot, defaulting to the empty list when no row exists
(`try_get(..)​.unwrap_or_default()` and absent-slot reads). -/
def pendingD (s : Dbs) (sidechain_number : Nat) : List PendingM6id :=
  (alGet s.pending_m6ids sidechain_number).getD []

/-- Stored treasury-UTXO count of a slot, defaulting to 0
(`try_get(..)​.unwrap_or(0)`). -/
def countD (s : Dbs) (sidechain_number : Nat) : Nat :=
  (alGet s.treasury_utxo_count sidechain_number).getD 0

/-- Old total treasury value of a slot: the stored Ctip's value, or zero when
no Ctip exists yet. -/
def oldTotalValue (s : Dbs) (sidechain_number : Nat) : Nat :=
  match alGet s.ctip sidechain_number with
  | some old_ctip => old_ctip.value
  | none => 0

/-- `handle_m1_propose_sidechain` (validator/task/mod.rs:53, bip300/task.rs:194):
ignore the M1 if a proposal with the same description hash exists, else
insert a fresh proposal with `vote_count = 0`.  Returns the new sidechain
when the proposal is new. -/
def handle_m1_propose_sidechain (s : Dbs) (proposal : SidechainProposal)
    (proposal_height : Nat) : Option Sidechain × Dbs :=
  let description_hash := sha256d proposal.description
  if (alGet s.description_hash_to_sidechain description_hash).isSome then
    (none, s)
  else
    let sidechain : Sidechain := ⟨proposal, ⟨0, proposal_height, none⟩⟩
    (some sidechain,
      { s with description_hash_to_sidechain :=
          alPut s.description_hash_to_sidechain description_hash sidechain })

/-- `handle_m2_ack_sidechain` (validator/task/mod.rs:93, bip300/task.rs:229):
ignore unknown hashes and slot mismatches; otherwise increment the vote
count, and activate the sidechain when the threshold/age condition holds,
moving the record from the proposals table to the slot table. -/
def handle_m2_ack_sidechain (s : Dbs) (height sidechain_number data_hash : Nat) :
    Dbs :=
  match alGet s.description_hash_to_sidechain data_hash with
  | none => s
  | some sidechain0 =>
    if sidechain0.proposal.sidechain_number ≠ sidechain_number then s
    else
      let sidechain :=
        { sidechain0 with status :=
            { sidechain0.status with vote_count := sidechain0.status.vote_count + 1 } }
      let s1 :=
        { s with description_hash_to_sidechain :=
            alPut s.description_hash_to_sidechain data_hash sidechain }
      let sidechain_proposal_age := height - sidechain.status.proposal_height
      let sidechain_slot_is_used := (alGet s1.sidechain sidechain_number).isSome
      let new_sidechain_activated :=
        (sidechain_slot_is_used
          ∧ sidechain.status.vote_count > USED_SIDECHAIN_SLOT_ACTIVATION_THRESHOLD
          ∧ sidechain_proposal_age ≤ USED_SIDECHAIN_SLOT_PROPOSAL_MAX_AGE)
        ∨ (¬ sidechain_slot_is_used
          ∧ sidechain.status.vote_count > UNUSED_SIDECHAIN_SLOT_ACTIVATION_THRESHOLD
          ∧ sidechain_proposal_age ≤ UNUSED_SIDECHAIN_SLOT_PROPOSAL_MAX_AGE)
      if new_sidechain_activated then
        let activated :=
          { sidechain with status :=
              { sidechain.status with activation_height := some height } }
        { s1 with
            sidechain := alPut s1.sidechain sidechain_number activated,
            description_hash_to_sidechain :=
              alDelete s1.description_hash_to_sidechain data_hash }
      else s1

/-- `handle_failed_sidechain_proposals` (validator/task/mod.rs:147,
bip300/task.rs:284): collect every proposal whose age exceeds the applicable
max age, then delete the collected hashes. -/
def handle_failed_sidechain_proposals (s : Dbs) (height : Nat) : Dbs :=
  let failed_proposals :=
    (s.description_hash_to_sidechain.filter (fun p =>
      let sidechain_proposal_age := height - p.2.status.proposal_height
      let sidechain_slot_is_used :=
        (alGet s.sidechain p.2.proposal.sidechain_number).isSome
      decide ((sidechain_slot_is_used
          ∧ sidechain_proposal_age > USED_SIDECHAIN_SLOT_PROPOSAL_MAX_AGE)
        ∨ (¬ sidechain_slot_is_used
          ∧ sidechain_proposal_age > UNUSED_SIDECHAIN_SLOT_PROPOSAL_MAX_AGE)))).map
      Prod.fst
  failed_proposals.foldl
    (fun st dh =>
      { st with description_hash_to_sidechain :=
          alDelete st.description_hash_to_sidechain dh })
    s

/-- `handle_m3_propose_bundle` (validator/task/mod.rs:184, bip300/task.rs:320):
fail with `InactiveSidechain` unless the slot is active, else append a
pending m6id with `vote_count = 0`. -/
def handle_m3_propose_bundle (s : Dbs) (sidechain_number m6id : Nat) :
    Res Dbs :=
  if (alGet s.sidechain sidechain_number).isNone then
    .err (.inactiveSidechain sidechain_number)
  else
    let pending_m6ids := pendingD s sidechain_number
    let updated := alPut s.pending_m6ids sidechain_number (pending_m6ids ++ [⟨m6id, 0⟩])
    .ok { s with pending_m6ids := updated }

/-- One slot's vote application inside `handle_m4_votes`: alarm decrements
every entry saturating at zero; otherwise an in-range index increments that
entry, out-of-range votes change nothing. -/
def m4_vote_slot (pending_m6ids : List PendingM6id) (vote : Nat) :
    List PendingM6id :=
  if vote = ALARM_TWO_BYTES then
    pending_m6ids.map (fun e =>
      if e.vote_count > 0 then { e with vote_count := e.vote_count - 1 } else e)
  else
    pending_m6ids.enum.map (fun p =>
      if p.1 = vote then { p.2 with vote_count := p.2.vote_count + 1 } else p.2)

/-- `handle_m4_votes` (validator/task/mod.rs:214, bip300/task.rs:348): the
upvote vector is indexed by slot number; abstain skips the slot, slots with
no pending row are skipped, otherwise the updated list is written back. -/
def handle_m4_votes (s : Dbs) (upvotes : List Nat) : Dbs :=
  upvotes.enum.foldl
    (fun st p =>
      let sidechain_number := p.1
      let vote := p.2
      if vote = ABSTAIN_TWO_BYTES then st
      else
        match alGet st.pending_m6ids sidechain_number with
        | none => st
        | some pending_m6ids =>
            let updated :=
              alPut st.pending_m6ids sidechain_number (m4_vote_slot pending_m6ids vote)
            { st with pending_m6ids := updated })
    s

/-- `handle_m4_ack_bundles` (validator/task/mod.rs:249, bip300/task.rs:382):
`LeadingBy50` and `RepeatPrevious` are `todo!()` (a panic); one-byte upvotes
are widened to the two-byte representation. -/
def handle_m4_ack_bundles (s : Dbs) (m4 : M4AckBundles) : Res Dbs :=
  match m4 with
  | .leadingBy50 => .panic
  | .repeatPrevious => .panic
  | .oneByte upvotes => .ok (handle_m4_votes s upvotes)
  | .twoBytes upvotes => .ok (handle_m4_votes s upvotes)

/-- Insertion into the `LinkedHashSet` of failed `(slot, m6id)` pairs: a
no-op when the pair is already present, else appended at the end. -/
def failed_insert (f : List (Nat × Nat)) (x : Nat × Nat) : List (Nat × Nat) :=
  if x ∈ f then f else f ++ [x]

/-- The inner loop of `handle_failed_m6ids` over one slot's pending entries:
insert the pair of every entry whose vote count exceeds the max age. -/
def slot_failed_scan (sn : Nat) (entries : List PendingM6id)
    (f : List (Nat × Nat)) : List (Nat × Nat) :=
  entries.foldl
    (fun f e =>
      if e.vote_count > WITHDRAWAL_BUNDLE_MAX_AGE then failed_insert f (sn, e.m6id)
      else f)
    f

/-- One iteration of `handle_failed_m6ids`'s row loop: scan the row's
entries into the failed set, then keep only the entries whose pair is not in
the set. -/
def sweep_step (acc : List (Nat × Nat) × List (Nat × List PendingM6id))
    (kv : Nat × List PendingM6id) :
    List (Nat × Nat) × List (Nat × List PendingM6id) :=
  let failed_m6ids := slot_failed_scan kv.1 kv.2 acc.1
  let kept := kv.2.filter (fun e => decide ((kv.1, e.m6id) ∉ failed_m6ids))
  (failed_m6ids, acc.2 ++ [(kv.1, kept)])

/-- `handle_failed_m6ids` (validator/task/mod.rs:272, bip300/task.rs:405):
iterate all pending rows threading one insertion-ordered set of failed
`(slot, m6id)` pairs; each row is rewritten keeping only entries whose pair
is not in the set.  Returns the failed set. -/
def handle_failed_m6ids (s : Dbs) : List (Nat × Nat) × Dbs :=
  let scan := s.pending_m6ids.foldl sweep_step ([], [])
  (scan.1,
    scan.2.foldl
      (fun st kv =>
        { st with pending_m6ids := alPut st.pending_m6ids kv.1 kv.2 })
      s)

/-- The trailing treasury writes of `handle_m5_m6` (validator/task/mod.rs:404-429,
bip300/task.rs:530-553): record the treasury UTXO at the next sequence
number (the current count), bump the count, and overwrite the slot's Ctip.
Returns the sequence number used. -/
def record_treasury_utxo (s : Dbs) (sidechain_number : Nat)
    (treasury_utxo : TreasuryUtxo) (new_ctip : Ctip) : Nat × Dbs :=
  let treasury_utxo_count := countD s sidechain_number
  let sequence_number := treasury_utxo_count
  let utxos :=
    alPut s.slot_sequence_to_treasury_utxo (sidechain_number, sequence_number)
      treasury_utxo
  let s1 := { s with slot_sequence_to_treasury_utxo := utxos }
  let counts := alPut s1.treasury_utxo_count sidechain_number (treasury_utxo_count + 1)
  let s2 := { s1 with treasury_utxo_count := counts }
  (sequence_number, { s2 with ctip := alPut s2.ctip sidechain_number new_ctip })

/-- `handle_m5_m6` (validator/task/mod.rs:311, bip300/task.rs:442).  A
transaction whose `output[0]` does not parse as OP_DRIVECHAIN is skipped.
Otherwise `output[1]` and the first byte of its script are indexed
unconditionally (a panic when absent), the old Ctip must be spent by some
input, a value-decreasing transaction must match a sufficiently-voted
pending m6id (else `InvalidM6`), and the treasury tables and Ctip are
updated; the returned payload is a deposit or a successful withdrawal. -/
def handle_m5_m6 (s : Dbs) (transaction : Transaction) :
    Res (Option (Sum Deposit (Nat × Nat)) × Dbs) :=
  match transaction.output.head? with
  | none => .panic
  | some output0 =>
  match parse_op_drivechain output0.script_pubkey with
  | none => .ok (none, s)
  | some sidechain_number =>
  let txid := transaction.txid
  let new_ctip_outpoint : OutPoint := ⟨txid, 0⟩
  let new_total_value := output0.value
  match transaction.output[1]? with
  | none => .panic
  | some output1 =>
  match output1.script_pubkey.head? with
  | none => .panic
  | some script0 =>
  let address : Option (List Nat) :=
    if script0 = OP_RETURN then some output1.script_pubkey.tail else none
  let old_total_res : Res Nat :=
    match alGet s.ctip sidechain_number with
    | some old_ctip =>
        if transaction.input.any (fun i => decide (i = old_ctip.outpoint)) then
          .ok old_ctip.value
        else .err (.oldCtipUnspent sidechain_number)
    | none => .ok 0
  match old_total_res with
  | .panic => .panic
  | .err e => .err e
  | .ok old_total_value =>
  let treasury_utxo : TreasuryUtxo :=
    ⟨new_ctip_outpoint, address, new_total_value, old_total_value⟩
  let m6_res : Res (Option (Sum Deposit (Nat × Nat)) × Dbs) :=
    if new_total_value < old_total_value then
      let m6id := m6_to_id transaction old_total_value
      match alGet s.pending_m6ids sidechain_number with
      | some pending_m6ids =>
          let m6_valid := pending_m6ids.any (fun e =>
            decide (e.m6id = m6id
              ∧ e.vote_count > WITHDRAWAL_BUNDLE_INCLUSION_THRESHOLD))
          if m6_valid then
            let updated :=
              alPut s.pending_m6ids sidechain_number
                (pending_m6ids.filter (fun e => decide (e.m6id ≠ m6id)))
            .ok (some (.inr (sidechain_number, m6id)),
              { s with pending_m6ids := updated })
          else .err .invalidM6
      | none => .err .invalidM6
    else .ok (none, s)
  match m6_res with
  | .panic => .panic
  | .err e => .err e
  | .ok (res0, s1) =>
  let recorded :=
    record_treasury_utxo s1 sidechain_number treasury_utxo
      ⟨new_ctip_outpoint, new_total_value⟩
  let sequence_number := recorded.1
  let s2 := recorded.2
  let res :=
    match address with
    | some addr =>
        if new_total_value ≥ old_total_value ∧ res0.isNone then
          some (.inl
            ⟨sidechain_number, sequence_number, ⟨txid, 0⟩,
              ⟨new_total_value - old_total_value, addr⟩⟩)
        else res0
    | none => res0
  .ok (res, s2)

/-- `handle_m8` (validator/task/mod.rs:451, bip300/task.rs:572): a
non-BMM-request `output[0]` passes through (`false`); a request must match
this block's commitment for its slot (else `NotAcceptedByMiners`) and the
previous mainchain block hash (else `BmmRequestExpired`). -/
def handle_m8 (transaction : Transaction)
    (accepted_bmm_requests : List (Nat × Nat))
    (prev_mainchain_block_hash : Nat) : Res Bool :=
  match transaction.output.head? with
  | none => .panic
  | some output0 =>
  match parse_m8_bmm_request output0.script_pubkey with
  | none => .ok false
  | some bmm_request =>
    if ¬ (alGet accepted_bmm_requests bmm_request.sidechain_number
        = some bmm_request.sidechain_block_hash) then
      .err .notAcceptedByMiners
    else if bmm_request.prev_mainchain_block_hash ≠ prev_mainchain_block_hash then
      .err .bmmRequestExpired
    else .ok true

/-- Accumulator of `connect_block`'s coinbase-output loop
(validator/task/mod.rs:485-568). -/
structure CoinbaseAcc where
  dbs : Dbs
  bmmed_sidechain_slots : List Nat
  accepted_bmm_requests : List (Nat × Nat)
  sidechain_proposals : List (Nat × SidechainProposal)
  withdrawal_bundle_events : List WithdrawalBundleEvent
deriving DecidableEq

/-- The coinbase-output loop of `connect_block`: parse each output script
(failures are skipped), dispatch M1/M2/M3/M4 to the handlers, collect M3
`Submitted` events and new M1 proposals, and accumulate M7 commitments
rejecting duplicate slots. -/
def connect_coinbase_outputs (height : Nat) :
    CoinbaseAcc → List (Nat × TxOut) → LoopRes CoinbaseAcc
  | acc, [] => .ok acc
  | acc, (vout, output) :: rest =>
    match parse_coinbase_script output.script_pubkey with
    | none => connect_coinbase_outputs height acc rest
    | some (.m1ProposeSidechain sidechain_number data) =>
        let sidechain_proposal : SidechainProposal := ⟨sidechain_number, data⟩
        let m1 := handle_m1_propose_sidechain acc.dbs sidechain_proposal height
        let proposals :=
          match m1.1 with
          | some sidechain => acc.sidechain_proposals ++ [(vout, sidechain.proposal)]
          | none => acc.sidechain_proposals
        connect_coinbase_outputs height
          { acc with dbs := m1.2, sidechain_proposals := proposals } rest
    | some (.m2AckSidechain sidechain_number data_hash) =>
        connect_coinbase_outputs height
          { acc with dbs :=
              handle_m2_ack_sidechain acc.dbs height sidechain_number data_hash }
          rest
    | some (.m3ProposeBundle sidechain_number bundle_txid) =>
        match handle_m3_propose_bundle acc.dbs sidechain_number bundle_txid with
        | .panic => .panic
        | .err e => .err e acc.dbs
        | .ok s =>
            let events :=
              acc.withdrawal_bundle_events
                ++ [⟨sidechain_number, bundle_txid, .submitted⟩]
            connect_coinbase_outputs height
              { acc with dbs := s, withdrawal_bundle_events := events } rest
    | some (.m4AckBundles m4) =>
        match handle_m4_ack_bundles acc.dbs m4 with
        | .panic => .panic
        | .err e => .err e acc.dbs
        | .ok s => connect_coinbase_outputs height { acc with dbs := s } rest
    | some (.m7BmmAccept sidechain_number sidechain_block_hash) =>
        if sidechain_number ∈ acc.bmmed_sidechain_slots then
          .err (.multipleBmmBlocks sidechain_number) acc.dbs
        else
          connect_coinbase_outputs height
            { acc with
                bmmed_sidechain_slots :=
                  acc.bmmed_sidechain_slots ++ [sidechain_number],
                accepted_bmm_requests :=
                  acc.accepted_bmm_requests
                    ++ [(sidechain_number, sidechain_block_hash)] }
            rest

/-- Accumulator of `connect_block`'s non-coinbase transaction loop
(validator/task/mod.rs:576-607). -/
structure TxsAcc where
  dbs : Dbs
  deposits : List Deposit
  withdrawal_bundle_events : List WithdrawalBundleEvent
deriving DecidableEq

/-- The non-coinbase transaction loop of `connect_block`: apply
`handle_m5_m6` (collecting deposits and `Succeeded` events) then `handle_m8`
to every transaction in order. -/
def connect_txs (accepted_bmm_requests : List (Nat × Nat))
    (prev_mainchain_block_hash : Nat) :
    TxsAcc → List Transaction → LoopRes TxsAcc
  | acc, [] => .ok acc
  | acc, transaction :: rest =>
    match handle_m5_m6 acc.dbs transaction with
    | .panic => .panic
    | .err e => .err e acc.dbs
    | .ok (res, s) =>
      let acc1 :=
        match res with
        | some (.inl deposit) =>
            { acc with dbs := s, deposits := acc.deposits ++ [deposit] }
        | some (.inr p) =>
            let events := acc.withdrawal_bundle_events ++ [⟨p.1, p.2, .succeeded⟩]
            { acc with dbs := s, withdrawal_bundle_events := events }
        | none => { acc with dbs := s }
      match handle_m8 transaction accepted_bmm_requests prev_mainchain_block_hash with
      | .panic => .panic
      | .err e => .err e acc1.dbs
      | .ok _ =>
          connect_txs accepted_bmm_requests prev_mainchain_block_hash acc1 rest

/-- The strict `Option<Work>` comparison `Some(work) > current_tip_work` of
validator/task/mod.rs:631 (`None` compares below every `Some`). -/
def optWorkGt : Option Nat → Option Nat → Bool
  | some x, some y => decide (y < x)
  | some _, none => true
  | none, _ => false

/-- The failed `(slot, m6id)` set computed by the sweep phase of
`connect_block` on a given pre-state, coinbase and height (used to state
which `Failed` events a successful connection stores). -/
def connectFailedSet (s : Dbs) (block : Block) (height : Nat) :
    List (Nat × Nat) :=
  match block.txdata.head? with
  | none => []
  | some coinbase =>
    match connect_coinbase_outputs height ⟨s, [], [], [], []⟩ coinbase.output.enum with
    | .ok acc =>
        (handle_failed_m6ids (handle_failed_sidechain_proposals acc.dbs height)).1
    | _ => []

/-- `connect_block` (validator/task/mod.rs:476): coinbase loop, proposal and
bundle expiry sweeps, transaction loop, `BlockInfo` write, and the
cumulative-work-guarded chain-tip update.  The event broadcast is
best-effort and out of scope. -/
def connect_block (s : Dbs) (block : Block) (height : Nat) : LoopRes Dbs :=
  match block.txdata.head? with
  | none => .panic
  | some coinbase =>
  match connect_coinbase_outputs height ⟨s, [], [], [], []⟩ coinbase.output.enum with
  | .panic => .panic
  | .err e sp => .err e sp
  | .ok acc =>
  let s1 := handle_failed_sidechain_proposals acc.dbs height
  let swept := handle_failed_m6ids s1
  let failed_m6ids := swept.1
  let s2 := swept.2
  let block_hash := block.block_hash
  let prev_mainchain_block_hash := block.prev_blockhash
  let withdrawal_bundle_events :=
    acc.withdrawal_bundle_events
      ++ failed_m6ids.map (fun p => ⟨p.1, p.2, .failed⟩)
  match connect_txs acc.accepted_bmm_requests prev_mainchain_block_hash
      ⟨s2, [], withdrawal_bundle_events⟩ block.txdata.tail with
  | .panic => .panic
  | .err e sp => .err e sp
  | .ok txAcc =>
  let block_info : BlockInfo :=
    ⟨acc.accepted_bmm_requests, coinbase.txid, txAcc.deposits,
      acc.sidechain_proposals, txAcc.withdrawal_bundle_events⟩
  let s3 := { txAcc.dbs with block_info := alPut txAcc.dbs.block_info block_hash block_info }
  let tip_work_res : Res (Option Nat) :=
    match s3.current_chain_tip with
    | none => .ok none
    | some current_tip =>
        match alGet s3.cumulative_work current_tip with
        | some w => .ok (some w)
        | none => .err .dbError
  match tip_work_res with
  | .panic => .panic
  | .err e => .err e s3
  | .ok current_tip_cumulative_work =>
  match alGet s3.cumulative_work block_hash with
  | none => .err .dbError s3
  | some cumulative_work =>
  if optWorkGt (some cumulative_work) current_tip_cumulative_work then
    .ok { s3 with current_chain_tip := some block_hash }
  else .ok s3

/-- `disconnect_block` (validator/task/mod.rs:654, and
`_disconnect_block` bip300/task.rs:744): the body is `todo!()`, an
unconditional panic; nothing is ever restored. -/
def disconnect_block (_s : Dbs) (_block_hash : Nat) : LoopRes Dbs :=
  .panic

/-- One step of the validator sync loop (`sync_blocks`,
validator/task/mod.rs:752-756): a fresh write transaction is opened per
block, committed only when `connect_block` succeeds; on error or panic the
transaction is dropped and the store keeps its pre-block state. -/
def connectStep (s : Dbs) (bh : Block × Nat) : Dbs :=
  match connect_block s bh.1 bh.2 with
  | .ok s1 => s1
  | .err _ _ => s
  | .panic => s

/-- Folding `connectStep` over a sequence of (block, height) pairs. -/
def connectChain (s : Dbs) (blocks : List (Block × Nat)) : Dbs :=
  blocks.foldl connectStep s

/-- `connect_block` of the legacy task (bip300/task.rs:594): same coinbase
loop, plus maintenance of the height-indexed accepted-BMM-hash table with a
depth bound of 1008, the sweeps, the transaction loop, and the
`block_hash_to_deposits` write; no chain-tip logic. -/
def bip300_connect_block (s : Dbs) (block : Block) (height : Nat) :
    LoopRes Dbs :=
  match block.txdata.head? with
  | none => .panic
  | some coinbase =>
  match connect_coinbase_outputs height ⟨s, [], [], [], []⟩ coinbase.output.enum with
  | .panic => .panic
  | .err e sp => .err e sp
  | .ok acc =>
  let accepted_bmm_block_hashes := acc.accepted_bmm_requests.map Prod.snd
  let bmmTable :=
    alPut acc.dbs.block_height_to_accepted_bmm_block_hashes height
      accepted_bmm_block_hashes
  let s0 := { acc.dbs with block_height_to_accepted_bmm_block_hashes := bmmTable }
  let s1 :=
    if s0.block_height_to_accepted_bmm_block_hashes.length > 1008 then
      match s0.block_height_to_accepted_bmm_block_hashes.head? with
      | some kv =>
          let pruned := alDelete s0.block_height_to_accepted_bmm_block_hashes kv.1
          { s0 with block_height_to_accepted_bmm_block_hashes := pruned }
      | none => s0
    else s0
  let s2 := handle_failed_sidechain_proposals s1 height
  let swept := handle_failed_m6ids s2
  let failed_m6ids := swept.1
  let s3 := swept.2
  let withdrawal_bundle_events :=
    acc.withdrawal_bundle_events
      ++ failed_m6ids.map (fun p => ⟨p.1, p.2, .failed⟩)
  match connect_txs acc.accepted_bmm_requests block.prev_blockhash
      ⟨s3, [], withdrawal_bundle_events⟩ block.txdata.tail with
  | .panic => .panic
  | .err e sp => .err e sp
  | .ok txAcc =>
    let deposits :=
      alPut txAcc.dbs.block_hash_to_deposits block.block_hash txAcc.deposits
    .ok { txAcc.dbs with block_hash_to_deposits := deposits }

/-- The while-loop body of the legacy `task_loop_once` (bip300/task.rs:850-888
and bip300/mod.rs:834-875), iterated `remaining` times inside ONE write
transaction.  A `connect_block` error is discarded (`if ... .is_err() {}`)
and the loop keeps the transaction's partial writes; the chain tip is then
written unconditionally and the height advanced.  A panic aborts the whole
transaction. -/
def task_loop_iter (chain : Nat → Block) :
    Dbs → Nat → Nat → Option (Dbs × Nat)
  | txn, height, 0 => some (txn, height)
  | txn, height, remaining + 1 =>
      let block := chain height
      match bip300_connect_block txn block height with
      | .panic => none
      | .ok s =>
          task_loop_iter chain { s with current_chain_tip := some block.block_hash }
            (height + 1) remaining
      | .err _ s =>
          task_loop_iter chain { s with current_chain_tip := some block.block_hash }
            (height + 1) remaining

/-- `task_loop_once` (bip300/task.rs:830, bip300/mod.rs:817): read the stored
height, return early when the main chain height equals it, otherwise run the
while loop, store the final height, and COMMIT the transaction — including
any partial writes of failed blocks.  The mainchain RPC is modelled by
`chain` (height to block) and `main_block_height`. -/
def task_loop_once (chain : Nat → Block) (main_block_height : Nat) (s : Dbs) :
    Option Dbs :=
  let height := s.current_block_height.getD 0
  if main_block_height = height then some s
  else
    match task_loop_iter chain s height (main_block_height - height) with
    | none => none
    | some (txn, height1) =>
        some { txn with current_block_height := some height1 }

/-- The invariant I2 of the spec: for every slot, the stored treasury-UTXO
count equals the number of entries recorded for the slot, and the sequence
numbers present are exactly the contiguous prefix below the count. -/
def treasuryInv (s : Dbs) : Prop :=
  ∀ n : Nat,
    (∀ seq : Nat,
      (alGet s.slot_sequence_to_treasury_utxo (n, seq)).isSome ↔ seq < countD s n)
    ∧ countD s n
        = (s.slot_sequence_to_treasury_utxo.filter
            (fun p => decide (p.1.1 = n))).length

/-- Frame relating two states that agree on every table the coinbase
message handlers and expiry sweeps never touch. -/
def coreFrame (s s' : Dbs) : Prop :=
  s'.ctip = s.ctip
  ∧ s'.treasury_utxo_count = s.treasury_utxo_count
  ∧ s'.slot_sequence_to_treasury_utxo = s.slot_sequence_to_treasury_utxo
  ∧ s'.block_info = s.block_info
  ∧ s'.cumulative_work = s.cumulative_work
  ∧ s'.current_chain_tip = s.current_chain_tip
  ∧ s'.block_hash_to_deposits = s.block_hash_to_deposits
  ∧ s'.current_block_height = s.current_block_height

/-- Frame relating two states that agree on the tables read and written by
the tip-update logic of the validator's `connect_block`. -/
def tipFrame (s s' : Dbs) : Prop :=
  s'.block_info = s.block_info
  ∧ s'.cumulative_work = s.cumulative_work
  ∧ s'.current_chain_tip = s.current_chain_tip

/-- Fixture: a coinbase transaction carrying no BIP300 messages. -/
def fxEmptyCoinbase : Transaction := ⟨1, [], []⟩

/-- Fixture: an OP_DRIVECHAIN transaction with a single output (no
`output[1]`). -/
def fxPanicTx : Transaction := ⟨7, [], [⟨100, [180, 3, 81]⟩]⟩

/-- Fixture: a block whose only non-coinbase transaction is `fxPanicTx`. -/
def fxPanicBlock : Block := ⟨500, 400, 1, [fxEmptyCoinbase, fxPanicTx]⟩

/-- Fixture: a valid M6 withdrawal transaction spending the stored Ctip of
slot 3 (old value 100000) down to 40000, with an OP_RETURN second output. -/
def fxM6Tx : Transaction := ⟨7, [⟨9, 0⟩], [⟨40000, [180, 3, 81]⟩, ⟨0, [106]⟩]⟩

/-- Fixture: store with a Ctip of 100000 for slot 3 and a sufficiently-voted
pending m6id matching `fxM6Tx`. -/
def fxM6State : Dbs :=
  { initialDbs with
      ctip := [(3, ⟨⟨9, 0⟩, 100000⟩)],
      pending_m6ids := [(3, [⟨m6_to_id fxM6Tx 100000, 6⟩])] }

/-- Fixture: like `fxM6Tx` but spending an outpoint other than the stored
Ctip. -/
def fxM6BadTx : Transaction := ⟨7, [⟨8, 0⟩], [⟨40000, [180, 3, 81]⟩, ⟨0, [106]⟩]⟩

/-- Fixture: store with a Ctip of 100000 for slot 3 and a sufficiently-voted
pending m6id matching `fxM6BadTx`. -/
def fxM6BadState : Dbs :=
  { initialDbs with
      ctip := [(3, ⟨⟨9, 0⟩, 100000⟩)],
      pending_m6ids := [(3, [⟨m6_to_id fxM6BadTx 100000, 6⟩])] }

/-- Fixture: a deposit transaction for slot 3 of 100000 satoshis with
recipient address bytes `[1, 2]`. -/
def fxDepositTx : Transaction := ⟨7, [], [⟨100000, [180, 3, 81]⟩, ⟨0, [106, 1, 2]⟩]⟩

/-- Fixture: a value-increasing treasury transaction with an address that
does not spend the stored Ctip. -/
def fxDepositBadTx : Transaction :=
  ⟨7, [⟨8, 0⟩], [⟨100000, [180, 3, 81]⟩, ⟨0, [106, 1, 2]⟩]⟩

/-- Fixture: store with a Ctip of 50000 for slot 3. -/
def fxDepositBadState : Dbs :=
  { initialDbs with ctip := [(3, ⟨⟨9, 0⟩, 50000⟩)] }

/-- Fixture: slot 1 has two pending entries sharing m6id 5, one expired
(vote count 11) and one fresh (vote count 3). -/
def fxDupState : Dbs :=
  { initialDbs with pending_m6ids := [(1, [⟨5, 11⟩, ⟨5, 3⟩])] }

/-- Fixture: a proposal for slot 3 with 5 votes proposed at height 100,
about to be activated by one more ack. -/
def fxAckState : Dbs :=
  { initialDbs with
      description_hash_to_sidechain := [(sha256d [7], ⟨⟨3, [7]⟩, ⟨5, 100, none⟩⟩)] }

/-- Fixture: a block whose coinbase proposes a sidechain (M1, slot 3) and
then proposes a withdrawal bundle (M3) for the inactive slot 3, making
`connect_block` fail after the M1 write. -/
def fxC1Block : Block :=
  ⟨900, 800, 1, [⟨1, [], [⟨0, [209, 3, 7]⟩, ⟨0, [211, 3, 42]⟩]⟩]⟩

/-- Fixture: a message-free block with hash 500. -/
def fxC8Block : Block := ⟨500, 400, 1, [fxEmptyCoinbase]⟩

/-- Fixture: store holding cumulative work 10 for block hash 500. -/
def fxC8State : Dbs := { initialDbs with cumulative_work := [(500, 10)] }

/-- Fixture: an M8 BMM-request transaction for slot 3, committing to
sidechain block hash 171 on top of mainchain block 400. -/
def fxM8Tx : Transaction := ⟨7, [], [⟨0, [216, 3, 171, 400]⟩]⟩

/-- Fixture: a mainchain serving `fxC1Block` at every height. -/
def fxC1Chain : Nat → Block := fun _ => fxC1Block

/-- Fixture: the store state the legacy task loop commits after processing
`fxC1Block` (whose connection fails). -/
def fxC1Committed : Dbs := (task_loop_once fxC1Chain 1 initialDbs).getD initialDbs

/-- Fixture: the partial write-transaction state at the moment `fxC1Block`'s
connection fails: the M1 proposal is already written. -/
def fxC1Partial : Dbs :=
  { initialDbs with
      description_hash_to_sidechain := [(8, ⟨⟨3, [7]⟩, ⟨0, 0, none⟩⟩)] }

/-- Fixture: the store after connecting `fxC8Block` on `fxC8State`. -/
def fxC8Connected : Dbs := connectStep fxC8State (fxC8Block, 0)

/-- Fixture: the result of applying the deposit transaction `fxDepositTx` to
the fresh store. -/
def fxDepositResult : Option (Sum Deposit (Nat × Nat)) × Dbs :=
  match handle_m5_m6 initialDbs fxDepositTx with
  | .ok p => p
  | _ => (none, initialDbs)

/-- The optional recipient address of a peg transaction: the bytes of
`output[1]`'s script after a leading OP_RETURN (the address extraction of
`handle_m5_m6`, total where the code would panic). -/
def txAddress (tx : Transaction) : Option (List Nat) :=
  match tx.output[1]? with
  | some output1 =>
      match output1.script_pubkey with
      | b :: rest => if b = OP_RETURN then some rest else none
      | [] => none
  | none => none

/-- The M2 activation condition of `handle_m2_ack_sidechain`, on the
post-increment vote count: the proposal activates exactly when its slot is
used and it clears the used-slot threshold within the used-slot max age, or
its slot is unused and it clears the unused-slot threshold within the
unused-slot max age. -/
def activationCondition (s : Dbs) (height sidechain_number : Nat)
    (sc : Sidechain) : Prop :=
  ((alGet s.sidechain sidechain_number).isSome = true
    ∧ sc.status.vote_count + 1 > USED_SIDECHAIN_SLOT_ACTIVATION_THRESHOLD
    ∧ height - sc.status.proposal_height ≤ USED_SIDECHAIN_SLOT_PROPOSAL_MAX_AGE)
  ∨ (¬ (alGet s.sidechain sidechain_number).isSome = true
    ∧ sc.status.vote_count + 1 > UNUSED_SIDECHAIN_SLOT_ACTIVATION_THRESHOLD
    ∧ height - sc.status.proposal_height ≤ UNUSED_SIDECHAIN_SLOT_PROPOSAL_MAX_AGE)

/-- The invariant I7 of the spec, restricted to the blocks the validator has
connected (those with a stored `BlockInfo`): the chain tip names a block
whose cumulative work is maximal among them. -/
def tipMax (s : Dbs) : Prop :=
  ∀ p ∈ s.block_info, ∃ w tw t,
    s.current_chain_tip = some t
    ∧ alGet s.cumulative_work p.1 = some w
    ∧ alGet s.cumulative_work t = some tw
    ∧ w ≤ tw

theorem alGet_nil {K V : Type} [DecidableEq K] (k : K) :
    alGet ([] : List (K × V)) k = none := rfl

theorem alGet_cons {K V : Type} [DecidableEq K] (p : K × V)
    (rest : List (K × V)) (k : K) :
    alGet (p :: rest) k = if p.1 = k then some p.2 else alGet rest k := by
  by_cases h : p.1 = k <;> simp [alGet, List.find?, h]

theorem alGet_alPut_self {K V : Type} [DecidableEq K] (l : List (K × V))
    (k : K) (v : V) : alGet (alPut l k v) k = some v := by
  induction l with
  | nil => simp [alPut, alGet_cons]
  | cons p rest ih =>
      by_cases h : p.1 = k
      · simp [alPut, h, alGet_cons]
      · simp [alPut, h, alGet_cons, ih]

theorem alGet_alPut_ne {K V : Type} [DecidableEq K] (l : List (K × V))
    (k k' : K) (v : V) (h : k' ≠ k) : alGet (alPut l k v) k' = alGet l k' := by
  have hkk : ¬ (k = k') := fun hh => h hh.symm
  induction l with
  | nil => simp [alPut, alGet_cons, alGet_nil, hkk]
  | cons p rest ih =>
      by_cases hp : p.1 = k
      · have hp' : ¬ (p.1 = k') := fun hh => hkk (hp ▸ hh)
        simp [alPut, hp, alGet_cons, hkk, hp']
      · by_cases hp' : p.1 = k'
        · simp [alPut, hp, alGet_cons, hp', h]
        · simp [alPut, hp, alGet_cons, hp', ih]

theorem alPut_of_alGet_none {K V : Type} [DecidableEq K] (l : List (K × V))
    (k : K) (v : V) (h : alGet l k = none) : alPut l k v = l ++ [(k, v)] := by
  induction l with
  | nil => simp [alPut]
  | cons p rest ih =>
      rw [alGet_cons] at h
      by_cases hp : p.1 = k
      · simp [hp] at h
      · rw [if_neg hp] at h
        simp [alPut, hp, ih h]

theorem alGet_append_single_same {K V : Type} [DecidableEq K]
    (l : List (K × V)) (k : K) (v : V) (h : alGet l k = none) :
    alGet (l ++ [(k, v)]) k = some v := by
  induction l with
  | nil => simp [alGet_cons]
  | cons p rest ih =>
      rw [alGet_cons] at h
      by_cases hp : p.1 = k
      · simp [hp] at h
      · rw [if_neg hp] at h
        simp [alGet_cons, hp, ih h]

theorem alGet_append_single_ne {K V : Type} [DecidableEq K]
    (l : List (K × V)) (k k' : K) (v : V) (h : k' ≠ k) :
    alGet (l ++ [(k, v)]) k' = alGet l k' := by
  have hkk : ¬ (k = k') := fun hh => h hh.symm
  induction l with
  | nil => simp [alGet_cons, alGet_nil, hkk]
  | cons p rest ih =>
      by_cases hp : p.1 = k'
      · simp [alGet_cons, hp]
      · simp [alGet_cons, hp, ih]

theorem coreFrame_refl (s : Dbs) : coreFrame s s :=
  ⟨rfl, rfl, rfl, rfl, rfl, rfl, rfl, rfl⟩

theorem coreFrame_trans {s t u : Dbs} (h1 : coreFrame s t) (h2 : coreFrame t u) :
    coreFrame s u := by
  obtain ⟨a1, a2, a3, a4, a5, a6, a7, a8⟩ := h1
  obtain ⟨b1, b2, b3, b4, b5, b6, b7, b8⟩ := h2
  exact ⟨b1.trans a1, b2.trans a2, b3.trans a3, b4.trans a4, b5.trans a5,
    b6.trans a6, b7.trans a7, b8.trans a8⟩

theorem coreFrame_tipFrame {s t : Dbs} (h : coreFrame s t) : tipFrame s t :=
  ⟨h.2.2.2.1, h.2.2.2.2.1, h.2.2.2.2.2.1⟩

theorem tipFrame_refl (s : Dbs) : tipFrame s s := ⟨rfl, rfl, rfl⟩

theorem tipFrame_trans {s t u : Dbs} (h1 : tipFrame s t) (h2 : tipFrame t u) :
    tipFrame s u :=
  ⟨h2.1.trans h1.1, h2.2.1.trans h1.2.1, h2.2.2.trans h1.2.2⟩

theorem foldl_coreFrame {α : Type} (f : Dbs → α → Dbs)
    (hf : ∀ s a, coreFrame s (f s a)) :
    ∀ (l : List α) (s : Dbs), coreFrame s (l.foldl f s) := by
  intro l
  induction l with
  | nil => intro s; exact coreFrame_refl s
  | cons a rest ih =>
      intro s
      exact coreFrame_trans (hf s a) (ih (f s a))

theorem handle_m1_coreFrame (s : Dbs) (p : SidechainProposal) (h : Nat) :
    coreFrame s (handle_m1_propose_sidechain s p h).2 := by
  unfold handle_m1_propose_sidechain
  by_cases hc : (alGet s.description_hash_to_sidechain (sha256d p.description)).isSome
  · simp only [hc, if_true]
    exact coreFrame_refl s
  · simp only [hc, if_false]
    exact ⟨rfl, rfl, rfl, rfl, rfl, rfl, rfl, rfl⟩

theorem handle_m2_coreFrame (s : Dbs) (h n dh : Nat) :
    coreFrame s (handle_m2_ack_sidechain s h n dh) := by
  simp only [handle_m2_ack_sidechain]
  split
  · exact coreFrame_refl s
  · split
    · exact coreFrame_refl s
    · split
      · exact ⟨rfl, rfl, rfl, rfl, rfl, rfl, rfl, rfl⟩
      · exact ⟨rfl, rfl, rfl, rfl, rfl, rfl, rfl, rfl⟩

theorem handle_failed_sidechain_proposals_coreFrame (s : Dbs) (h : Nat) :
    coreFrame s (handle_failed_sidechain_proposals s h) := by
  simp only [handle_failed_sidechain_proposals]
  exact foldl_coreFrame
    (fun st dh =>
      { st with description_hash_to_sidechain :=
          alDelete st.description_hash_to_sidechain dh })
    (fun st dh => ⟨rfl, rfl, rfl, rfl, rfl, rfl, rfl, rfl⟩) _ s

theorem handle_m3_coreFrame (s s' : Dbs) (n m : Nat)
    (hok : handle_m3_propose_bundle s n m = .ok s') : coreFrame s s' := by
  unfold handle_m3_propose_bundle at hok
  split at hok
  · exact absurd hok (by simp)
  · simp only [Res.ok.injEq] at hok
    subst hok
    exact ⟨rfl, rfl, rfl, rfl, rfl, rfl, rfl, rfl⟩

theorem handle_m4_votes_coreFrame (s : Dbs) (upvotes : List Nat) :
    coreFrame s (handle_m4_votes s upvotes) := by
  unfold handle_m4_votes
  refine foldl_coreFrame _ (fun st p => ?_) _ s
  dsimp only
  split
  · exact coreFrame_refl st
  · split
    · exact coreFrame_refl st
    · exact ⟨rfl, rfl, rfl, rfl, rfl, rfl, rfl, rfl⟩

theorem handle_m4_ack_bundles_coreFrame (s s' : Dbs) (m4 : M4AckBundles)
    (hok : handle_m4_ack_bundles s m4 = .ok s') : coreFrame s s' := by
  unfold handle_m4_ack_bundles at hok
  match m4 with
  | .leadingBy50 => exact absurd hok (by simp)
  | .repeatPrevious => exact absurd hok (by simp)
  | .oneByte upvotes =>
      simp only [Res.ok.injEq] at hok
      exact hok ▸ handle_m4_votes_coreFrame s upvotes
  | .twoBytes upvotes =>
      simp only [Res.ok.injEq] at hok
      exact hok ▸ handle_m4_votes_coreFrame s upvotes

theorem handle_failed_m6ids_coreFrame (s : Dbs) :
    coreFrame s (handle_failed_m6ids s).2 := by
  simp only [handle_failed_m6ids]
  exact foldl_coreFrame
    (fun (st : Dbs) (kv : Nat × List PendingM6id) =>
      { st with pending_m6ids := alPut st.pending_m6ids kv.1 kv.2 })
    (fun st kv => ⟨rfl, rfl, rfl, rfl, rfl, rfl, rfl, rfl⟩) _ s

theorem connect_coinbase_outputs_ok_coreFrame (h : Nat) :
    ∀ (l : List (Nat × TxOut)) (acc acc' : CoinbaseAcc),
      connect_coinbase_outputs h acc l = .ok acc' → coreFrame acc.dbs acc'.dbs := by
  intro l
  induction l with
  | nil =>
      intro acc acc' hok
      unfold connect_coinbase_outputs at hok
      simp only [LoopRes.ok.injEq] at hok
      exact hok ▸ coreFrame_refl acc.dbs
  | cons p rest ih =>
      intro acc acc' hok
      unfold connect_coinbase_outputs at hok
      split at hok
      · exact ih acc acc' hok
      · refine coreFrame_trans ?_ (ih _ acc' hok)
        exact handle_m1_coreFrame acc.dbs _ h
      · refine coreFrame_trans ?_ (ih _ acc' hok)
        exact handle_m2_coreFrame acc.dbs h _ _
      · rename_i sn bt heq
        split at hok
        · exact absurd hok (by simp)
        · exact absurd hok (by simp)
        · rename_i s1 hm3
          refine coreFrame_trans (handle_m3_coreFrame acc.dbs s1 sn bt hm3) ?_
          exact ih _ acc' hok
      · rename_i m4 heq
        split at hok
        · exact absurd hok (by simp)
        · exact absurd hok (by simp)
        · rename_i s1 hm4
          refine coreFrame_trans (handle_m4_ack_bundles_coreFrame acc.dbs s1 m4 hm4) ?_
          exact ih _ acc' hok
      · split at hok
        · exact absurd hok (by simp)
        · rename_i sn sbh heq hnotmem
          have hres := ih
            { acc with
                bmmed_sidechain_slots := acc.bmmed_sidechain_slots ++ [sn],
                accepted_bmm_requests := acc.accepted_bmm_requests ++ [(sn, sbh)] }
            acc' hok
          exact hres

theorem connect_coinbase_outputs_err_coreFrame (h : Nat) :
    ∀ (l : List (Nat × TxOut)) (acc : CoinbaseAcc) (e : BlockErr) (sp : Dbs),
      connect_coinbase_outputs h acc l = .err e sp → coreFrame acc.dbs sp := by
  intro l
  induction l with
  | nil =>
      intro acc e sp hok
      unfold connect_coinbase_outputs at hok
      exact absurd hok (by simp)
  | cons p rest ih =>
      intro acc e sp hok
      unfold connect_coinbase_outputs at hok
      split at hok
      · exact ih acc e sp hok
      · exact coreFrame_trans (handle_m1_coreFrame acc.dbs _ h) (ih _ e sp hok)
      · exact coreFrame_trans (handle_m2_coreFrame acc.dbs h _ _) (ih _ e sp hok)
      · rename_i sn bt heq
        split at hok
        · exact absurd hok (by simp)
        · simp only [LoopRes.err.injEq] at hok
          exact hok.2 ▸ coreFrame_refl acc.dbs
        · rename_i s1 hm3
          exact coreFrame_trans (handle_m3_coreFrame acc.dbs s1 sn bt hm3) (ih _ e sp hok)
      · rename_i m4 heq
        split at hok
        · exact absurd hok (by simp)
        · simp only [LoopRes.err.injEq] at hok
          exact hok.2 ▸ coreFrame_refl acc.dbs
        · rename_i s1 hm4
          exact coreFrame_trans (handle_m4_ack_bundles_coreFrame acc.dbs s1 m4 hm4)
            (ih _ e sp hok)
      · split at hok
        · simp only [LoopRes.err.injEq] at hok
          exact hok.2 ▸ coreFrame_refl acc.dbs
        · rename_i sn sbh heq hnotmem
          have hres := ih
            { acc with
                bmmed_sidechain_slots := acc.bmmed_sidechain_slots ++ [sn],
                accepted_bmm_requests := acc.accepted_bmm_requests ++ [(sn, sbh)] }
            e sp hok
          exact hres

theorem record_treasury_utxo_tipFrame (s : Dbs) (sn : Nat) (u : TreasuryUtxo)
    (c : Ctip) : tipFrame s (record_treasury_utxo s sn u c).2 :=
  ⟨rfl, rfl, rfl⟩

theorem handle_m5_m6_ok_cases (s s' : Dbs) (tx : Transaction)
    (r : Option (Sum Deposit (Nat × Nat)))
    (hok : handle_m5_m6 s tx = .ok (r, s')) :
    (∃ o0, tx.output.head? = some o0
      ∧ parse_op_drivechain o0.script_pubkey = none ∧ s' = s ∧ r = none)
    ∨ ∃ o0 sn s1 u,
      tx.output.head? = some o0
      ∧ parse_op_drivechain o0.script_pubkey = some sn
      ∧ s1.slot_sequence_to_treasury_utxo = s.slot_sequence_to_treasury_utxo
      ∧ s1.treasury_utxo_count = s.treasury_utxo_count
      ∧ s1.block_info = s.block_info
      ∧ s1.cumulative_work = s.cumulative_work
      ∧ s1.current_chain_tip = s.current_chain_tip
      ∧ (∀ n e, e ∈ pendingD s1 n → e ∈ pendingD s n)
      ∧ s' = (record_treasury_utxo s1 sn u ⟨⟨tx.txid, 0⟩, o0.value⟩).2 := by
  simp only [handle_m5_m6] at hok
  split at hok
  · exact absurd hok (by simp)
  · rename_i o0 hhead
    split at hok
    · rename_i hparse
      simp only [Res.ok.injEq, Prod.mk.injEq] at hok
      exact Or.inl ⟨o0, hhead, hparse, hok.2.symm, hok.1.symm⟩
    · rename_i sn hparse
      split at hok
      · exact absurd hok (by simp)
      · rename_i o1 hout1
        split at hok
        · exact absurd hok (by simp)
        · rename_i b0 hb0
          split at hok
          · exact absurd hok (by simp)
          · exact absurd hok (by simp)
          · rename_i oldv hold
            split at hok
            · exact absurd hok (by simp)
            · exact absurd hok (by simp)
            · rename_i res0 s1 hm6
              simp only [Res.ok.injEq, Prod.mk.injEq] at hok
              have hs1c : s1 = s ∨ ∃ l, alGet s.pending_m6ids sn = some l ∧ s1 = { s with pending_m6ids := alPut s.pending_m6ids sn (l.filter (fun e => decide (e.m6id ≠ m6_to_id tx oldv))) } := by
                split at hm6
                · split at hm6
                  · rename_i l hpend
                    split at hm6
                    · simp only [Res.ok.injEq, Prod.mk.injEq] at hm6
                      exact Or.inr ⟨l, hpend, hm6.2.symm⟩
                    · exact absurd hm6 (by simp)
                  · exact absurd hm6 (by simp)
                · simp only [Res.ok.injEq, Prod.mk.injEq] at hm6
                  exact Or.inl hm6.2.symm
              rcases hs1c with hs1 | ⟨l, hpend, hs1⟩
              · subst hs1
                exact Or.inr ⟨o0, sn, s1, _, hhead, hparse, rfl, rfl, rfl, rfl,
                  rfl, fun n e he => he, hok.2.symm⟩
              · subst hs1
                refine Or.inr ⟨o0, sn, { s with pending_m6ids := alPut s.pending_m6ids sn (l.filter (fun e => decide (e.m6id ≠ m6_to_id tx oldv))) }, _, hhead, hparse, rfl, rfl, rfl, rfl,
                  rfl, ?_, hok.2.symm⟩
                intro n e he
                by_cases hn : n = sn
                · subst hn
                  rw [pendingD] at he ⊢
                  rw [alGet_alPut_self] at he
                  simp only [Option.getD_some] at he
                  rw [hpend]
                  simp only [Option.getD_some]
                  exact List.mem_of_mem_filter he
                · rw [pendingD] at he ⊢
                  rw [alGet_alPut_ne _ _ _ _ hn] at he
                  exact he

theorem handle_m5_m6_tipFrame (s s' : Dbs) (tx : Transaction)
    (r : Option (Sum Deposit (Nat × Nat)))
    (hok : handle_m5_m6 s tx = .ok (r, s')) : tipFrame s s' := by
  rcases handle_m5_m6_ok_cases s s' tx r hok with ⟨o0, _, _, heq, _⟩ | ⟨o0, sn, s1, u, _, _, h3, h4, h5, h6, h7, _, heq⟩
  · exact heq ▸ tipFrame_refl s
  · subst heq
    exact tipFrame_trans ⟨h5, h6, h7⟩ (record_treasury_utxo_tipFrame s1 sn u _)

theorem connect_txs_ok_tipFrame (comm : List (Nat × Nat)) (prev : Nat) :
    ∀ (txs : List Transaction) (acc acc' : TxsAcc),
      connect_txs comm prev acc txs = .ok acc' → tipFrame acc.dbs acc'.dbs := by
  intro txs
  induction txs with
  | nil =>
      intro acc acc' hok
      unfold connect_txs at hok
      simp only [LoopRes.ok.injEq] at hok
      exact hok ▸ tipFrame_refl acc.dbs
  | cons tx rest ih =>
      intro acc acc' hok
      unfold connect_txs at hok
      split at hok
      · exact absurd hok (by simp)
      · exact absurd hok (by simp)
      · rename_i res s1 hm5
        have hframe := handle_m5_m6_tipFrame acc.dbs s1 tx res hm5
        split at hok
        all_goals {
          split at hok
          · exact absurd hok (by simp)
          · exact absurd hok (by simp)
          · exact tipFrame_trans hframe (ih _ acc' hok)
        }

theorem connect_txs_err_tipFrame (comm : List (Nat × Nat)) (prev : Nat) :
    ∀ (txs : List Transaction) (acc : TxsAcc) (e : BlockErr) (sp : Dbs),
      connect_txs comm prev acc txs = .err e sp → tipFrame acc.dbs sp := by
  intro txs
  induction txs with
  | nil =>
      intro acc e sp hok
      unfold connect_txs at hok
      exact absurd hok (by simp)
  | cons tx rest ih =>
      intro acc e sp hok
      unfold connect_txs at hok
      split at hok
      · exact absurd hok (by simp)
      · simp only [LoopRes.err.injEq] at hok
        exact hok.2 ▸ tipFrame_refl acc.dbs
      · rename_i res s1 hm5
        have hframe := handle_m5_m6_tipFrame acc.dbs s1 tx res hm5
        split at hok
        all_goals {
          split at hok
          · exact absurd hok (by simp)
          · simp only [LoopRes.err.injEq] at hok
            exact hok.2 ▸ hframe
          · exact tipFrame_trans hframe (ih _ e sp hok)
        }

theorem connect_block_ok_shape (s s' : Dbs) (b : Block) (h : Nat)
    (hok : connect_block s b h = .ok s') :
    ∃ smid bi w,
      tipFrame s smid
      ∧ alGet s.cumulative_work b.block_hash = some w
      ∧ (s.current_chain_tip = none
          ∨ ∃ t tw, s.current_chain_tip = some t
              ∧ alGet s.cumulative_work t = some tw)
      ∧ s' = (if optWorkGt (some w) (s.current_chain_tip.bind (alGet s.cumulative_work)) = true then { smid with block_info := alPut smid.block_info b.block_hash bi, current_chain_tip := some b.block_hash } else { smid with block_info := alPut smid.block_info b.block_hash bi }) := by
  simp only [connect_block] at hok
  split at hok
  · exact absurd hok (by simp)
  · rename_i coinbase hcoin
    split at hok
    · exact absurd hok (by simp)
    · exact absurd hok (by simp)
    · rename_i acc hcb
      have hf1 : coreFrame s acc.dbs :=
        connect_coinbase_outputs_ok_coreFrame h _ ⟨s, [], [], [], []⟩ acc hcb
      split at hok
      · exact absurd hok (by simp)
      · exact absurd hok (by simp)
      · rename_i txAcc htxs
        have hfmid : coreFrame s
            (handle_failed_m6ids (handle_failed_sidechain_proposals acc.dbs h)).2 :=
          coreFrame_trans
            (coreFrame_trans hf1 (handle_failed_sidechain_proposals_coreFrame acc.dbs h))
            (handle_failed_m6ids_coreFrame _)
        have hframe : tipFrame s txAcc.dbs :=
          tipFrame_trans (coreFrame_tipFrame hfmid)
            (connect_txs_ok_tipFrame _ _ _ _ txAcc htxs)
        split at hok
        · exact absurd hok (by simp)
        · exact absurd hok (by simp)
        · rename_i w0 heq
          rw [hframe.2.2, hframe.2.1] at heq
          split at hok
          · exact absurd hok (by simp)
          · rename_i w hw
            rw [hframe.2.1] at hw
            have hbind : s.current_chain_tip.bind (alGet s.cumulative_work) = w0 := by
              split at heq
              · rename_i htip
                simp only [Res.ok.injEq] at heq
                rw [htip]
                simpa using heq
              · rename_i t htip
                split at heq
                · rename_i tw htw
                  simp only [Res.ok.injEq] at heq
                  rw [htip]
                  simpa [htw] using heq
                · exact absurd heq (by simp)
            have htipcase : s.current_chain_tip = none
                ∨ ∃ t tw, s.current_chain_tip = some t
                    ∧ alGet s.cumulative_work t = some tw := by
              split at heq
              · rename_i htip
                exact Or.inl htip
              · rename_i t htip
                split at heq
                · rename_i tw htw
                  exact Or.inr ⟨t, tw, htip, htw⟩
                · exact absurd heq (by simp)
            split at hok
            · rename_i hgt
              simp only [LoopRes.ok.injEq] at hok
              refine ⟨txAcc.dbs,
                ⟨acc.accepted_bmm_requests, coinbase.txid, txAcc.deposits,
                  acc.sidechain_proposals, txAcc.withdrawal_bundle_events⟩,
                w, hframe, hw, htipcase, ?_⟩
              rw [hbind, if_pos hgt]
              exact hok.symm
            · rename_i hgt
              simp only [LoopRes.ok.injEq] at hok
              refine ⟨txAcc.dbs,
                ⟨acc.accepted_bmm_requests, coinbase.txid, txAcc.deposits,
                  acc.sidechain_proposals, txAcc.withdrawal_bundle_events⟩,
                w, hframe, hw, htipcase, ?_⟩
              rw [hbind, if_neg hgt]
              exact hok.symm

theorem connect_block_err_tip (s sp : Dbs) (b : Block) (h : Nat) (e : BlockErr)
    (herr : connect_block s b h = .err e sp) :
    sp.current_chain_tip = s.current_chain_tip := by
  simp only [connect_block] at herr
  split at herr
  · exact absurd herr (by simp)
  · rename_i coinbase hcoin
    split at herr
    · exact absurd herr (by simp)
    · rename_i e1 sp1 hcbe
      simp only [LoopRes.err.injEq] at herr
      have hcf := connect_coinbase_outputs_err_coreFrame h _ ⟨s, [], [], [], []⟩ e1 sp1 hcbe
      rw [← herr.2]
      exact hcf.2.2.2.2.2.1
    · rename_i acc hcb
      have hf1 : coreFrame s acc.dbs :=
        connect_coinbase_outputs_ok_coreFrame h _ ⟨s, [], [], [], []⟩ acc hcb
      have hfmid : coreFrame s
          (handle_failed_m6ids (handle_failed_sidechain_proposals acc.dbs h)).2 :=
        coreFrame_trans
          (coreFrame_trans hf1 (handle_failed_sidechain_proposals_coreFrame acc.dbs h))
          (handle_failed_m6ids_coreFrame _)
      split at herr
      · exact absurd herr (by simp)
      · rename_i e1 sp1 htxse
        simp only [LoopRes.err.injEq] at herr
        have htf := connect_txs_err_tipFrame _ _ _ _ e1 sp1 htxse
        rw [← herr.2]
        exact htf.2.2.trans (coreFrame_tipFrame hfmid).2.2
      · rename_i txAcc htxs
        have hframe : tipFrame s txAcc.dbs :=
          tipFrame_trans (coreFrame_tipFrame hfmid)
            (connect_txs_ok_tipFrame _ _ _ _ txAcc htxs)
        split at herr
        · exact absurd herr (by simp)
        · rename_i e1 hwork
          simp only [LoopRes.err.injEq] at herr
          rw [← herr.2]
          exact hframe.2.2
        · rename_i w0 heq
          split at herr
          · simp only [LoopRes.err.injEq] at herr
            rw [← herr.2]
            exact hframe.2.2
          · split at herr
            · exact absurd herr (by simp)
            · exact absurd herr (by simp)

theorem treasuryInv_initial : treasuryInv initialDbs := by
  intro n
  refine ⟨fun seq => ?_, ?_⟩
  · simp [initialDbs, countD, alGet]
  · simp [initialDbs, countD, alGet]

theorem treasuryInv_congr (s s1 : Dbs)
    (h1 : s1.slot_sequence_to_treasury_utxo = s.slot_sequence_to_treasury_utxo)
    (h2 : s1.treasury_utxo_count = s.treasury_utxo_count)
    (hinv : treasuryInv s) : treasuryInv s1 := by
  intro n
  have := hinv n
  simpa [treasuryInv, countD, h1, h2] using this

theorem record_treasury_utxo_counts (s : Dbs) (sn : Nat) (u : TreasuryUtxo)
    (c : Ctip) :
    countD (record_treasury_utxo s sn u c).2 sn = countD s sn + 1
    ∧ alGet (record_treasury_utxo s sn u c).2.slot_sequence_to_treasury_utxo
        (sn, countD s sn) = some u := by
  constructor
  · simp [record_treasury_utxo, countD, alGet_alPut_self]
  · simp [record_treasury_utxo, alGet_alPut_self]

theorem record_treasury_utxo_treasuryInv (s : Dbs) (sn : Nat) (u : TreasuryUtxo)
    (c : Ctip) (hinv : treasuryInv s) :
    treasuryInv (record_treasury_utxo s sn u c).2 := by
  have habsent : alGet s.slot_sequence_to_treasury_utxo (sn, countD s sn) = none := by
    have h := ((hinv sn).1 (countD s sn))
    rcases hh : alGet s.slot_sequence_to_treasury_utxo (sn, countD s sn) with _ | v
    · rfl
    · exfalso
      have : countD s sn < countD s sn := h.mp (by simp [hh])
      exact absurd this (Nat.lt_irrefl _)
  have happend : alPut s.slot_sequence_to_treasury_utxo (sn, countD s sn) u
      = s.slot_sequence_to_treasury_utxo ++ [((sn, countD s sn), u)] :=
    alPut_of_alGet_none _ _ _ habsent
  intro n
  by_cases hn : n = sn
  · subst hn
    constructor
    · intro seq
      have hcnt : countD (record_treasury_utxo s n u c).2 n = countD s n + 1 :=
        (record_treasury_utxo_counts s n u c).1
      rw [hcnt]
      by_cases hseq : seq = countD s n
      · subst hseq
        simp only [record_treasury_utxo, happend]
        rw [alGet_append_single_same _ _ _ habsent]
        simp [Nat.lt_succ_self]
      · simp only [record_treasury_utxo, happend]
        rw [alGet_append_single_ne _ _ _ _ (by simp [hseq])]
        rw [(hinv n).1 seq]
        constructor
        · intro hlt
          exact Nat.lt_succ_of_lt hlt
        · intro hlt
          rcases Nat.lt_succ_iff_lt_or_eq.mp hlt with hlt' | heq'
          · exact hlt'
          · exact absurd heq' hseq
    · have hcnt : countD (record_treasury_utxo s n u c).2 n = countD s n + 1 :=
        (record_treasury_utxo_counts s n u c).1
      rw [hcnt]
      simp only [record_treasury_utxo, happend]
      rw [List.filter_append, List.length_append]
      have : (List.filter (fun p => decide (p.1.1 = n)) [((n, countD s n), u)]).length = 1 := by
        simp
      rw [this, ← (hinv n).2]
  · constructor
    · intro seq
      have hcnt : countD (record_treasury_utxo s sn u c).2 n = countD s n := by
        simp only [record_treasury_utxo, countD]
        rw [alGet_alPut_ne _ _ _ _ hn]
      rw [hcnt]
      simp only [record_treasury_utxo, happend]
      rw [alGet_append_single_ne _ _ _ _ (by simp [hn])]
      exact (hinv n).1 seq
    · have hcnt : countD (record_treasury_utxo s sn u c).2 n = countD s n := by
        simp only [record_treasury_utxo, countD]
        rw [alGet_alPut_ne _ _ _ _ hn]
      rw [hcnt]
      simp only [record_treasury_utxo, happend]
      rw [List.filter_append, List.length_append]
      have : (List.filter (fun p => decide (p.1.1 = n)) [((sn, countD s sn), u)]).length = 0 := by
        simp [Ne.symm hn]
      rw [this, ← (hinv n).2]
      omega

theorem handle_m5_m6_treasuryInv (s s' : Dbs) (tx : Transaction)
    (r : Option (Sum Deposit (Nat × Nat)))
    (hok : handle_m5_m6 s tx = .ok (r, s')) (hinv : treasuryInv s) :
    treasuryInv s' := by
  rcases handle_m5_m6_ok_cases s s' tx r hok with ⟨o0, _, _, heq, _⟩ |
    ⟨o0, sn, s1, u, _, _, h3, h4, h5, h6, h7, _, heq⟩
  · exact heq ▸ hinv
  · subst heq
    exact record_treasury_utxo_treasuryInv s1 sn u _
      (treasuryInv_congr s s1 h3 h4 hinv)

theorem connect_txs_treasuryInv (comm : List (Nat × Nat)) (prev : Nat) :
    ∀ (txs : List Transaction) (acc acc' : TxsAcc),
      connect_txs comm prev acc txs = .ok acc' → treasuryInv acc.dbs →
      treasuryInv acc'.dbs := by
  intro txs
  induction txs with
  | nil =>
      intro acc acc' hok hinv
      unfold connect_txs at hok
      simp only [LoopRes.ok.injEq] at hok
      exact hok ▸ hinv
  | cons tx rest ih =>
      intro acc acc' hok hinv
      unfold connect_txs at hok
      split at hok
      · exact absurd hok (by simp)
      · exact absurd hok (by simp)
      · rename_i res s1 hm5
        have hinv1 := handle_m5_m6_treasuryInv acc.dbs s1 tx res hm5 hinv
        split at hok
        all_goals {
          split at hok
          · exact absurd hok (by simp)
          · exact absurd hok (by simp)
          · exact ih _ acc' hok hinv1
        }

theorem treasuryInv_of_coreFrame {s s' : Dbs} (hf : coreFrame s s')
    (hinv : treasuryInv s) : treasuryInv s' :=
  treasuryInv_congr s s' hf.2.2.1 hf.2.1 hinv

theorem connect_block_treasuryInv (s s' : Dbs) (b : Block) (h : Nat)
    (hok : connect_block s b h = .ok s') (hinv : treasuryInv s) :
    treasuryInv s' := by
  simp only [connect_block] at hok
  split at hok
  · exact absurd hok (by simp)
  · rename_i coinbase hcoin
    split at hok
    · exact absurd hok (by simp)
    · exact absurd hok (by simp)
    · rename_i acc hcb
      have hf1 : coreFrame s acc.dbs :=
        connect_coinbase_outputs_ok_coreFrame h _ ⟨s, [], [], [], []⟩ acc hcb
      split at hok
      · exact absurd hok (by simp)
      · exact absurd hok (by simp)
      · rename_i txAcc htxs
        have hfmid : coreFrame s
            (handle_failed_m6ids (handle_failed_sidechain_proposals acc.dbs h)).2 :=
          coreFrame_trans
            (coreFrame_trans hf1 (handle_failed_sidechain_proposals_coreFrame acc.dbs h))
            (handle_failed_m6ids_coreFrame _)
        have hinvtx : treasuryInv txAcc.dbs :=
          connect_txs_treasuryInv _ _ _ _ txAcc htxs
            (treasuryInv_of_coreFrame hfmid hinv)
        split at hok
        · exact absurd hok (by simp)
        · exact absurd hok (by simp)
        · rename_i w0 heq
          split at hok
          · exact absurd hok (by simp)
          · rename_i w hw
            split at hok
            all_goals {
              simp only [LoopRes.ok.injEq] at hok
              refine treasuryInv_congr _ _ ?_ ?_ hinvtx
              · rw [← hok]
              · rw [← hok]
            }

theorem connectStep_treasuryInv (s : Dbs) (bh : Block × Nat)
    (hinv : treasuryInv s) : treasuryInv (connectStep s bh) := by
  unfold connectStep
  split
  · rename_i s1 hok
    exact connect_block_treasuryInv s s1 bh.1 bh.2 hok hinv
  · exact hinv
  · exact hinv

theorem connectChain_treasuryInv (blocks : List (Block × Nat)) :
    ∀ s : Dbs, treasuryInv s → treasuryInv (connectChain s blocks) := by
  induction blocks with
  | nil => intro s hinv; exact hinv
  | cons bh rest ih =>
      intro s hinv
      exact ih (connectStep s bh) (connectStep_treasuryInv s bh hinv)

theorem mem_alPut {K V : Type} [DecidableEq K] (l : List (K × V)) (k : K)
    (v : V) (p : K × V) (h : p ∈ alPut l k v) : p = (k, v) ∨ p ∈ l := by
  induction l with
  | nil =>
      simp only [alPut, List.mem_singleton] at h
      exact Or.inl h
  | cons q rest ih =>
      simp only [alPut] at h
      split at h
      · rcases List.mem_cons.mp h with h1 | h2
        · exact Or.inl h1
        · exact Or.inr (List.mem_cons_of_mem q h2)
      · rcases List.mem_cons.mp h with h1 | h2
        · exact Or.inr (h1 ▸ List.mem_cons_self q rest)
        · rcases ih h2 with h3 | h4
          · exact Or.inl h3
          · exact Or.inr (List.mem_cons_of_mem q h4)

theorem connectStep_tipMax (s : Dbs) (bh : Block × Nat) (hmax : tipMax s) :
    tipMax (connectStep s bh) := by
  unfold connectStep
  split
  · rename_i s' hok
    obtain ⟨smid, bi, w, hframe, hw, htipcase, hs'⟩ :=
      connect_block_ok_shape s s' bh.1 bh.2 hok
    subst hs'
    split
    · rename_i hgt
      intro p hp
      have hmem : p = (bh.1.block_hash, bi) ∨ p ∈ s.block_info := by
        have := mem_alPut smid.block_info bh.1.block_hash bi p (by
          simpa using hp)
        rcases this with h1 | h2
        · exact Or.inl h1
        · exact Or.inr (hframe.1 ▸ h2)
      rcases hmem with h1 | h2
      · refine ⟨w, w, bh.1.block_hash, by simp, ?_, ?_, le_refl w⟩
        · simp only [h1]
          simpa [hframe.2.1] using hw
        · simpa [hframe.2.1] using hw
      · obtain ⟨wp, twp, tp, htip, hwp, htwp, hle⟩ := hmax p h2
        rw [htip] at hgt
        simp only [Option.bind_eq_bind, Option.some_bind] at hgt
        rw [htwp] at hgt
        have hlt : twp < w := by
          simpa [optWorkGt] using hgt
        refine ⟨wp, w, bh.1.block_hash, by simp, ?_, ?_, le_of_lt (lt_of_le_of_lt hle hlt)⟩
        · simpa [hframe.2.1] using hwp
        · simpa [hframe.2.1] using hw
    · rename_i hgt
      rcases htipcase with htnone | ⟨t, tw, htip, htw⟩
      · exfalso
        rw [htnone] at hgt
        simp [optWorkGt] at hgt
      · rw [htip] at hgt
        simp only [Option.bind_eq_bind, Option.some_bind] at hgt
        rw [htw] at hgt
        have hwle : w ≤ tw := by
          simpa [optWorkGt] using hgt
        intro p hp
        have hmem : p = (bh.1.block_hash, bi) ∨ p ∈ s.block_info := by
          have := mem_alPut smid.block_info bh.1.block_hash bi p (by
            simpa using hp)
          rcases this with h1 | h2
          · exact Or.inl h1
          · exact Or.inr (hframe.1 ▸ h2)
        rcases hmem with h1 | h2
        · refine ⟨w, tw, t, ?_, ?_, ?_, hwle⟩
          · simpa [hframe.2.2] using htip
          · simp only [h1]
            simpa [hframe.2.1] using hw
          · simpa [hframe.2.1] using htw
        · obtain ⟨wp, twp, tp, htipp, hwp, htwp, hle⟩ := hmax p h2
          have htip2 := htip
          rw [htipp] at htip2
          injection htip2 with htt
          refine ⟨wp, tw, t, ?_, ?_, ?_, ?_⟩
          · simpa [hframe.2.2] using htip
          · simpa [hframe.2.1] using hwp
          · simpa [hframe.2.1] using htw
          · rw [← htt] at htw
            rw [htwp] at htw
            injection htw with htw'
            exact htw' ▸ hle
  · exact hmax
  · exact hmax

theorem connectChain_tipMax (blocks : List (Block × Nat)) :
    ∀ s : Dbs, tipMax s → tipMax (connectChain s blocks) := by
  induction blocks with
  | nil => intro s hmax; exact hmax
  | cons bh rest ih =>
      intro s hmax
      exact ih (connectStep s bh) (connectStep_tipMax s bh hmax)

/-- Claim C1: the claim says a block whose message processing fails is not
applied and no effect of it is ever committed.  Evaluating the legacy task
loop (`task_loop_once` of bip300/task.rs and bip300/mod.rs) at a block whose
coinbase carries a valid M1 followed by an M3 for an inactive slot shows the
opposite: `connect_block` fails with `InactiveSidechain`, yet the loop
discards the error, keeps the partial write transaction (the M1 proposal is
persisted), advances the chain tip to the failed block's hash, and commits. -/
theorem claim1_partial_block_effects_committed :
    bip300_connect_block initialDbs fxC1Block 0
      = LoopRes.err (BlockErr.inactiveSidechain 3) fxC1Partial
    ∧ task_loop_once fxC1Chain 1 initialDbs = some fxC1Committed
    ∧ fxC1Committed ≠ initialDbs
    ∧ (alGet fxC1Committed.description_hash_to_sidechain (sha256d [7])).isSome = true
    ∧ fxC1Committed.current_chain_tip = some fxC1Block.block_hash := by
  refine ⟨by decide, by decide, by decide, by decide, by decide⟩

/-- Claim C2 (amended): the block disconnector is unimplemented — the body of
`disconnect_block` (and of the legacy `_disconnect_block`) is `todo!()`, an
unconditional panic — so it restores nothing and the connect–disconnect
inverse law does not hold of the code. -/
theorem claim2_disconnect_unimplemented :
    ∀ (s : Dbs) (block_hash : Nat), disconnect_block s block_hash = LoopRes.panic :=
  fun _ _ => rfl

/-- Claim C2 counterexample: connecting a valid block on a concrete state and
then disconnecting it does not restore the original state — the disconnector
panics instead of returning the pre-connect state. -/
theorem claim2_counterexample :
    connect_block fxC8State fxC8Block 0 = LoopRes.ok fxC8Connected
    ∧ disconnect_block fxC8Connected fxC8Block.block_hash ≠ LoopRes.ok fxC8State := by
  refine ⟨by decide, by decide⟩

/-- Claim C5: after any sequence of connected blocks starting from the fresh
store, every slot's stored treasury-UTXO count equals the number of entries
recorded for it and the sequence numbers present are exactly the contiguous
prefix below the count; moreover each treasury transaction is recorded at
sequence number equal to the current count, which is then incremented. -/
theorem claim5_treasury_sequence_invariant :
    (∀ blocks : List (Block × Nat), treasuryInv (connectChain initialDbs blocks))
    ∧ (∀ (s s' : Dbs) (tx : Transaction) (o0 : TxOut) (sn : Nat)
        (r : Option (Sum Deposit (Nat × Nat))),
        tx.output.head? = some o0 →
        parse_op_drivechain o0.script_pubkey = some sn →
        handle_m5_m6 s tx = Res.ok (r, s') →
        countD s' sn = countD s sn + 1
        ∧ (alGet s'.slot_sequence_to_treasury_utxo (sn, countD s sn)).isSome = true) := by
  constructor
  · intro blocks
    exact connectChain_treasuryInv blocks initialDbs treasuryInv_initial
  · intro s s' tx o0 sn r hhead hparse hok
    rcases handle_m5_m6_ok_cases s s' tx r hok with ⟨o1, hhead1, hparse1, _, _⟩ |
      ⟨o1, sn1, s1, u, hhead1, hparse1, h3, h4, _, _, _, _, heq⟩
    · rw [hhead] at hhead1
      injection hhead1 with ho
      rw [← ho] at hparse1
      rw [hparse] at hparse1
      exact absurd hparse1 (by simp)
    · rw [hhead] at hhead1
      injection hhead1 with ho
      subst ho
      rw [hparse] at hparse1
      injection hparse1 with hsn
      subst hsn
      subst heq
      have hc := record_treasury_utxo_counts s1 sn u ⟨⟨tx.txid, 0⟩, o0.value⟩
      have hcnt : countD s1 sn = countD s sn := by
        simp [countD, h4]
      constructor
      · rw [hc.1, hcnt]
      · rw [← hcnt]
        simp [hc.2]

/-- Claim C5 witness: the treasury invariant holds after connecting a block,
and the concrete deposit transaction is recorded at sequence number 0 with
the count bumped to 1. -/
theorem claim5_witness :
    treasuryInv (connectChain initialDbs [(fxC8Block, 0)])
    ∧ countD fxDepositResult.2 3 = countD initialDbs 3 + 1
    ∧ (alGet fxDepositResult.2.slot_sequence_to_treasury_utxo
        (3, countD initialDbs 3)).isSome = true := by
  refine ⟨claim5_treasury_sequence_invariant.1 [(fxC8Block, 0)], ?_⟩
  have h := claim5_treasury_sequence_invariant.2 initialDbs fxDepositResult.2
    fxDepositTx ⟨100000, [180, 3, 81]⟩ 3 fxDepositResult.1 (by decide) (by decide)
    (by decide)
  exact h

/-- Claim C8 (amended): in the validator's `connect_block`, a successful
connection moves the chain tip to the block's hash exactly when the block's
stored cumulative work strictly exceeds that of the stored tip (or no tip is
stored); a failed connection leaves the tip of the write transaction
unchanged; and along any sequence of connect steps from a fresh tip, the tip
always names a connected block of maximal cumulative work. -/
theorem claim8_tip_update :
    (∀ (s s' : Dbs) (b : Block) (h : Nat),
      connect_block s b h = LoopRes.ok s' →
      s'.current_chain_tip =
        (if optWorkGt (alGet s.cumulative_work b.block_hash)
            (s.current_chain_tip.bind (alGet s.cumulative_work)) = true
          then some b.block_hash else s.current_chain_tip))
    ∧ (∀ (s sp : Dbs) (b : Block) (h : Nat) (e : BlockErr),
      connect_block s b h = LoopRes.err e sp →
      sp.current_chain_tip = s.current_chain_tip)
    ∧ (∀ (init : Dbs) (blocks : List (Block × Nat)),
      init.block_info = [] → init.current_chain_tip = none →
      tipMax (connectChain init blocks)) := by
  refine ⟨?_, ?_, ?_⟩
  · intro s s' b h hok
    obtain ⟨smid, bi, w, hframe, hw, htipcase, hs'⟩ :=
      connect_block_ok_shape s s' b h hok
    rw [hw]
    subst hs'
    split
    · rfl
    · exact hframe.2.2
  · intro s sp b h e herr
    exact connect_block_err_tip s sp b h e herr
  · intro init blocks hbi htip
    refine connectChain_tipMax blocks init ?_
    intro p hp
    rw [hbi] at hp
    exact absurd hp (List.not_mem_nil p)

/-- Claim C8 witness: connecting a message-free block whose work is stored
updates the tip to its hash (no previous tip), via the tip-update theorem at
a concrete input. -/
theorem claim8_witness :
    connect_block fxC8State fxC8Block 0 = LoopRes.ok fxC8Connected
    ∧ fxC8Connected.current_chain_tip =
        (if optWorkGt (alGet fxC8State.cumulative_work fxC8Block.block_hash)
            (fxC8State.current_chain_tip.bind (alGet fxC8State.cumulative_work)) = true
          then some fxC8Block.block_hash else fxC8State.current_chain_tip) := by
  have h := claim8_tip_update.1 fxC8State fxC8Connected fxC8Block 0 (by decide)
  exact ⟨by decide, h⟩

/-- Claim C8 counterexample: the legacy task loop (bip300/mod.rs
`task_loop_once`, one of the claim's cited sources) advances
`current_chain_tip` to a block's hash even though connecting that block
failed, contradicting the claim that a failed connection leaves the tip
unchanged. -/
theorem claim8_counterexample :
    bip300_connect_block initialDbs fxC1Block 0
      = LoopRes.err (BlockErr.inactiveSidechain 3) fxC1Partial
    ∧ initialDbs.current_chain_tip = none
    ∧ task_loop_once fxC1Chain 1 initialDbs = some fxC1Committed
    ∧ fxC1Committed.current_chain_tip = some fxC1Block.block_hash := by
  refine ⟨by decide, by decide, by decide, by decide⟩

/-- Claim C10: `handle_m5_m6` indexes `output[1]` and the first byte of its
script unconditionally for every transaction whose `output[0]` parses as
OP_DRIVECHAIN; under the precondition that such a transaction has a second
output with a non-empty script the handler never panics, and for a concrete
block containing a single-output OP_DRIVECHAIN transaction, block connection
panics instead of returning an error. -/
theorem claim10_m5m6_partiality :
    (∀ (s : Dbs) (tx : Transaction) (o0 o1 : TxOut) (sn : Nat),
      tx.output.head? = some o0 →
      parse_op_drivechain o0.script_pubkey = some sn →
      tx.output[1]? = some o1 →
      o1.script_pubkey ≠ [] →
      handle_m5_m6 s tx ≠ Res.panic)
    ∧ connect_block initialDbs fxPanicBlock 0 = LoopRes.panic := by
  constructor
  · intro s tx o0 o1 sn hhead hparse ho1 hne hpanic
    rcases hsc : o1.script_pubkey with _ | ⟨b0, sbs⟩
    · exact hne hsc
    · simp only [handle_m5_m6, hhead, hparse, ho1, hsc, List.head?_cons] at hpanic
      split at hpanic
      · rename_i heq
        split at heq
        · split at heq
          · exact absurd heq (by simp)
          · exact absurd heq (by simp)
        · exact absurd heq (by simp)
      · exact absurd hpanic (by simp)
      · split at hpanic
        · rename_i heq
          split at heq
          · split at heq
            · split at heq
              · exact absurd heq (by simp)
              · exact absurd heq (by simp)
            · exact absurd heq (by simp)
          · exact absurd heq (by simp)
        · exact absurd hpanic (by simp)
        · exact absurd hpanic (by simp)
  · decide

/-- Claim C10 witness: the no-panic statement applied to the concrete
two-output deposit transaction. -/
theorem claim10_witness : handle_m5_m6 initialDbs fxDepositTx ≠ Res.panic :=
  claim10_m5m6_partiality.1 initialDbs fxDepositTx ⟨100000, [180, 3, 81]⟩
    ⟨0, [106, 1, 2]⟩ 3 (by decide) (by decide) (by decide) (by decide)

theorem alGet_alDelete_self {K V : Type} [DecidableEq K] (l : List (K × V))
    (k : K) : alGet (alDelete l k) k = none := by
  induction l with
  | nil => rfl
  | cons p rest ih =>
      by_cases hp : p.1 = k
      · simpa [alDelete, hp] using ih
      · simpa [alDelete, alGet_cons, hp] using ih

/-- Claim C4: an M2 ack whose description hash matches a stored proposal with
the same slot number increments the proposal's vote count, and the sidechain
activates exactly under the threshold/age condition on the incremented
count; on activation the record (with `activation_height = H`) is written to
the slot table and deleted from the proposals table, otherwise the
incremented proposal stays in the proposals table and the slot table is
untouched. -/
theorem claim4_m2_ack_activation (s : Dbs)
    (height sidechain_number data_hash : Nat) (sc : Sidechain)
    (hfound : alGet s.description_hash_to_sidechain data_hash = some sc)
    (hsn : sc.proposal.sidechain_number = sidechain_number)
    (hph : sc.status.proposal_height ≤ height) :
    (activationCondition s height sidechain_number sc →
      alGet (handle_m2_ack_sidechain s height sidechain_number data_hash).sidechain
          sidechain_number
        = some ⟨sc.proposal,
            ⟨sc.status.vote_count + 1, sc.status.proposal_height, some height⟩⟩
      ∧ alGet (handle_m2_ack_sidechain s height sidechain_number
            data_hash).description_hash_to_sidechain data_hash = none)
    ∧ (¬ activationCondition s height sidechain_number sc →
      alGet (handle_m2_ack_sidechain s height sidechain_number
            data_hash).description_hash_to_sidechain data_hash
        = some ⟨sc.proposal,
            ⟨sc.status.vote_count + 1, sc.status.proposal_height,
              sc.status.activation_height⟩⟩
      ∧ (handle_m2_ack_sidechain s height sidechain_number data_hash).sidechain
          = s.sidechain) := by
  constructor
  · intro hact
    simp only [handle_m2_ack_sidechain, hfound, hsn, ne_eq, not_true_eq_false,
      if_false]
    rw [if_pos]
    · constructor
      · rw [alGet_alPut_self]
      · rw [alGet_alDelete_self]
    · exact hact
  · intro hact
    simp only [handle_m2_ack_sidechain, hfound, hsn, ne_eq, not_true_eq_false,
      if_false]
    rw [if_neg]
    · constructor
      · rw [alGet_alPut_self]
      · rfl
    · exact hact

/-- Claim C4 witness: the sixth ack at height 106 on a slot-3 proposal from
height 100 with five votes activates it: the slot table holds the record
with `activation_height = 106` and the proposal is gone. -/
theorem claim4_witness :
    alGet (handle_m2_ack_sidechain fxAckState 106 3 (sha256d [7])).sidechain 3
      = some ⟨⟨3, [7]⟩, ⟨6, 100, some 106⟩⟩
    ∧ alGet (handle_m2_ack_sidechain fxAckState 106 3
          (sha256d [7])).description_hash_to_sidechain (sha256d [7]) = none :=
  (claim4_m2_ack_activation fxAckState 106 3 (sha256d [7])
    ⟨⟨3, [7]⟩, ⟨5, 100, none⟩⟩ (by decide) (by decide) (by decide)).1
    (by unfold activationCondition; decide)

/-- Claim C9: a transaction whose `output[0]` parses as an M8 BMM request is
accepted exactly when this block's commitments map its slot to its sidechain
block hash and its previous-mainchain-hash equals the connecting block's
previous hash; a commitment mismatch fails with `NotAcceptedByMiners`, a
previous-hash mismatch fails with `BmmRequestExpired`, and a transaction
whose `output[0]` is not an M8 request passes through with no error. -/
theorem claim9_m8_acceptance :
    (∀ (tx : Transaction) (o0 : TxOut) (req : BmmRequest)
        (commitments : List (Nat × Nat)) (prev : Nat),
      tx.output.head? = some o0 →
      parse_m8_bmm_request o0.script_pubkey = some req →
      (handle_m8 tx commitments prev = Res.ok true
          ↔ alGet commitments req.sidechain_number = some req.sidechain_block_hash
            ∧ req.prev_mainchain_block_hash = prev)
        ∧ (handle_m8 tx commitments prev = Res.err BlockErr.notAcceptedByMiners
          ↔ ¬ alGet commitments req.sidechain_number = some req.sidechain_block_hash)
        ∧ (handle_m8 tx commitments prev = Res.err BlockErr.bmmRequestExpired
          ↔ alGet commitments req.sidechain_number = some req.sidechain_block_hash
            ∧ req.prev_mainchain_block_hash ≠ prev))
    ∧ (∀ (tx : Transaction) (o0 : TxOut) (commitments : List (Nat × Nat))
        (prev : Nat),
      tx.output.head? = some o0 →
      parse_m8_bmm_request o0.script_pubkey = none →
      handle_m8 tx commitments prev = Res.ok false) := by
  constructor
  · intro tx o0 req commitments prev hhead hparse
    simp only [handle_m8, hhead, hparse]
    by_cases hc : alGet commitments req.sidechain_number
        = some req.sidechain_block_hash
    · by_cases hp : req.prev_mainchain_block_hash = prev
      · simp [hc, hp]
      · simp [hc, hp]
    · simp [hc]
  · intro tx o0 commitments prev hhead hparse
    simp only [handle_m8, hhead, hparse]

/-- Claim C9 witness: a concrete M8 request matching the block's commitment
for slot 3 and the previous block hash 400 is accepted. -/
theorem claim9_witness : handle_m8 fxM8Tx [(3, 171)] 400 = Res.ok true :=
  ((claim9_m8_acceptance.1 fxM8Tx ⟨0, [216, 3, 171, 400]⟩ ⟨3, 171, 400⟩
    [(3, 171)] 400 (by decide) (by decide)).1).mpr ⟨by decide, rfl⟩

/-- Claim C3 (amended): for a transaction whose `output[0]` parses as
OP_DRIVECHAIN for slot `sn`, whose `output[0]` value is strictly below the
slot's stored Ctip value, which spends the stored Ctip outpoint and has a
second output with a non-empty script: the withdrawal is accepted exactly
when the slot's pending list holds an entry with m6id
`m6_to_id tx old_total` and vote count above the inclusion threshold; on
acceptance the matching m6id is removed from the pending list and the
transaction loop appends a `Succeeded` event, otherwise processing fails
with `InvalidM6`. -/
theorem claim3_withdrawal_acceptance (s : Dbs) (tx : Transaction) (o0 : TxOut)
    (sn : Nat) (ct : Ctip) (o1 : TxOut)
    (hhead : tx.output.head? = some o0)
    (hparse : parse_op_drivechain o0.script_pubkey = some sn)
    (hctip : alGet s.ctip sn = some ct)
    (hval : o0.value < ct.value)
    (hspend : tx.input.any (fun i => decide (i = ct.outpoint)) = true)
    (ho1 : tx.output[1]? = some o1)
    (hne : o1.script_pubkey ≠ []) :
    ((pendingD s sn).any (fun e => decide (e.m6id = m6_to_id tx ct.value
        ∧ e.vote_count > WITHDRAWAL_BUNDLE_INCLUSION_THRESHOLD)) = true →
      ∃ s', handle_m5_m6 s tx
          = Res.ok (some (Sum.inr (sn, m6_to_id tx ct.value)), s')
        ∧ alGet s'.pending_m6ids sn
            = some ((pendingD s sn).filter
                (fun e => decide (e.m6id ≠ m6_to_id tx ct.value))))
    ∧ (¬ (pendingD s sn).any (fun e => decide (e.m6id = m6_to_id tx ct.value
        ∧ e.vote_count > WITHDRAWAL_BUNDLE_INCLUSION_THRESHOLD)) = true →
      handle_m5_m6 s tx = Res.err BlockErr.invalidM6)
    ∧ (∀ (comm : List (Nat × Nat)) (prev : Nat) (deps : List Deposit)
        (evs : List WithdrawalBundleEvent) (rest : List Transaction)
        (s' : Dbs) (flag : Bool),
      handle_m5_m6 s tx = Res.ok (some (Sum.inr (sn, m6_to_id tx ct.value)), s') →
      handle_m8 tx comm prev = Res.ok flag →
      connect_txs comm prev ⟨s, deps, evs⟩ (tx :: rest)
        = connect_txs comm prev
            ⟨s', deps,
              evs ++ [⟨sn, m6_to_id tx ct.value, WithdrawalBundleEventKind.succeeded⟩]⟩
            rest) := by
  rcases hsc : o1.script_pubkey with _ | ⟨b0, sbs⟩
  · exact absurd hsc hne
  · have hnew : ¬ (ct.value ≤ o0.value) := by omega
    refine ⟨?_, ?_, ?_⟩
    · intro hany
      rcases hpend : alGet s.pending_m6ids sn with _ | l
      · rw [pendingD, hpend] at hany
        simp at hany
      · have hl : pendingD s sn = l := by rw [pendingD, hpend]; rfl
        rw [hl] at hany
        refine ⟨(record_treasury_utxo { s with pending_m6ids := alPut s.pending_m6ids sn (l.filter (fun e => decide (e.m6id ≠ m6_to_id tx ct.value))) } sn ⟨⟨tx.txid, 0⟩, (if b0 = OP_RETURN then some sbs else none), o0.value, ct.value⟩ ⟨⟨tx.txid, 0⟩, o0.value⟩).2, ?_, ?_⟩
        · simp only [handle_m5_m6, hhead, hparse, ho1, hsc, List.head?_cons,
            List.tail_cons, hctip, hspend, if_true, if_pos hval, hpend, hany]
          by_cases hb : b0 = OP_RETURN <;> simp [hb, hnew]
        · rw [hl]
          simp only [record_treasury_utxo]
          rw [alGet_alPut_self]
    · intro hany
      rcases hpend : alGet s.pending_m6ids sn with _ | l
      · simp only [handle_m5_m6, hhead, hparse, ho1, hsc, List.head?_cons,
          hctip, hspend, if_true, if_pos hval, hpend]
      · have hl : pendingD s sn = l := by rw [pendingD, hpend]; rfl
        rw [hl] at hany
        simp only [handle_m5_m6, hhead, hparse, ho1, hsc, List.head?_cons,
          hctip, hspend, if_true, if_pos hval, hpend,
          Bool.not_eq_true] at hany ⊢
        rw [hany]
        simp
    · intro comm prev deps evs rest s' flag hm5 hm8
      simp only [connect_txs, hm5, hm8]

/-- Claim C3 counterexample: the claim as stated (without the old-Ctip-spend
precondition) is false: a transaction meeting the claim's conditions whose
slot has a matching sufficiently-voted pending m6id is nonetheless rejected
with `OldCtipUnspent` (not accepted, and not `InvalidM6`) because no input
spends the stored Ctip outpoint. -/
theorem claim3_counterexample :
    parse_op_drivechain ([180, 3, 81] : List Nat) = some 3
    ∧ alGet fxM6BadState.ctip 3 = some ⟨⟨9, 0⟩, 100000⟩
    ∧ (40000 : Nat) < 100000
    ∧ (pendingD fxM6BadState 3).any (fun e =>
        decide (e.m6id = m6_to_id fxM6BadTx 100000
          ∧ e.vote_count > WITHDRAWAL_BUNDLE_INCLUSION_THRESHOLD)) = true
    ∧ handle_m5_m6 fxM6BadState fxM6BadTx
        = Res.err (BlockErr.oldCtipUnspent 3) := by
  refine ⟨by decide, by decide, by decide, by decide, by decide⟩

/-- Claim C3 witness: the concrete approved withdrawal of the spec's
scenario 4 is accepted and its m6id is removed from the pending list. -/
theorem claim3_witness :
    ∃ s', handle_m5_m6 fxM6State fxM6Tx
        = Res.ok (some (Sum.inr (3, m6_to_id fxM6Tx 100000)), s')
      ∧ alGet s'.pending_m6ids 3
          = some ((pendingD fxM6State 3).filter
              (fun e => decide (e.m6id ≠ m6_to_id fxM6Tx 100000))) :=
  (claim3_withdrawal_acceptance fxM6State fxM6Tx ⟨40000, [180, 3, 81]⟩ 3
    ⟨⟨9, 0⟩, 100000⟩ ⟨0, [106]⟩ (by decide) (by decide) (by decide) (by decide)
    (by decide) (by decide) (by decide)).1 (by decide)

/-- Claim C6 (amended): for a transaction whose `output[0]` parses as
OP_DRIVECHAIN and whose processing succeeds (in particular, when an old Ctip
exists some input spends it), a Deposit is returned exactly when `output[1]`
carries an OP_RETURN address, the new total value is at least the old total
value, and no withdrawal was produced; the deposit's value is the difference
of the totals and its script is the address bytes. -/
theorem claim6_deposit_iff (s s' : Dbs) (tx : Transaction) (o0 : TxOut)
    (sn : Nat) (r : Option (Sum Deposit (Nat × Nat)))
    (hhead : tx.output.head? = some o0)
    (hparse : parse_op_drivechain o0.script_pubkey = some sn)
    (hok : handle_m5_m6 s tx = Res.ok (r, s')) :
    ((∃ d, r = some (Sum.inl d))
      ↔ (∃ addr, txAddress tx = some addr)
        ∧ oldTotalValue s sn ≤ o0.value
        ∧ ∀ p, r ≠ some (Sum.inr p))
    ∧ (∀ d, r = some (Sum.inl d) →
        d.output.value = o0.value - oldTotalValue s sn
        ∧ ∃ addr, txAddress tx = some addr ∧ d.output.script_pubkey = addr) := by
  simp only [handle_m5_m6, hhead, hparse] at hok
  split at hok
  · exact absurd hok (by simp)
  · rename_i o1 ho1
    split at hok
    · exact absurd hok (by simp)
    · rename_i b0 hb0
      rcases hsc : o1.script_pubkey with _ | ⟨b1, sbs⟩
      · rw [hsc] at hb0
        exact absurd hb0 (by simp)
      · rw [hsc] at hb0
        simp only [List.head?_cons, Option.some.injEq] at hb0
        subst hb0
        have haddr : txAddress tx
            = (if b1 = OP_RETURN then some sbs else none) := by
          simp [txAddress, ho1, hsc]
        split at hok
        · exact absurd hok (by simp)
        · exact absurd hok (by simp)
        · rename_i oldv hold
          have holdv : oldTotalValue s sn = oldv := by
            unfold oldTotalValue
            split at hold
            · rename_i c hc
              split at hold
              · simp only [Res.ok.injEq] at hold
                exact hold
              · exact absurd hold (by simp)
            · simp only [Res.ok.injEq] at hold
              exact hold
          split at hok
          · exact absurd hok (by simp)
          · exact absurd hok (by simp)
          · rename_i res0 s1 hm6
            rw [hsc] at hok
            simp only [List.tail_cons] at hok
            have hres0 : (o0.value < oldv
                  ∧ ∃ q, res0 = some (Sum.inr (q : Nat × Nat)))
                ∨ (¬ o0.value < oldv ∧ res0 = none) := by
              split at hm6
              · rename_i hlt
                split at hm6
                · split at hm6
                  · simp only [Res.ok.injEq, Prod.mk.injEq] at hm6
                    exact Or.inl ⟨hlt, ⟨_, hm6.1.symm⟩⟩
                  · exact absurd hm6 (by simp)
                · exact absurd hm6 (by simp)
              · rename_i hlt
                simp only [Res.ok.injEq, Prod.mk.injEq] at hm6
                exact Or.inr ⟨hlt, hm6.1.symm⟩
            rcases hres0 with ⟨hlt, q, hq⟩ | ⟨hge, hq⟩
            · subst hq
              by_cases hb : b1 = OP_RETURN
              · simp only [hb, if_true, ge_iff_le, Option.isNone_some,
                  Bool.false_eq_true, and_false, if_false, Res.ok.injEq,
                  Prod.mk.injEq] at hok
                rw [← hok.1]
                refine ⟨⟨fun hd => absurd hd.choose_spec (by simp),
                  fun hcond => absurd rfl (hcond.2.2 q)⟩, ?_⟩
                intro d hd
                exact absurd hd (by simp)
              · simp only [hb, if_false, Res.ok.injEq, Prod.mk.injEq] at hok
                rw [← hok.1]
                refine ⟨⟨fun hd => absurd hd.choose_spec (by simp), ?_⟩, ?_⟩
                · rintro ⟨⟨addr, haddr2⟩, _, _⟩
                  rw [haddr, if_neg hb] at haddr2
                  exact absurd haddr2 (by simp)
                · intro d hd
                  exact absurd hd (by simp)
            · subst hq
              have hge2 : oldv ≤ o0.value := Nat.le_of_not_lt hge
              by_cases hb : b1 = OP_RETURN
              · simp only [hb, if_true, ge_iff_le, hge2, Option.isNone_none,
                  and_true, true_and, if_true, Res.ok.injEq, Prod.mk.injEq,
                  List.tail_cons, hsc] at hok
                rw [← hok.1]
                constructor
                · constructor
                  · intro _
                    refine ⟨⟨sbs, ?_⟩, ?_, ?_⟩
                    · rw [haddr, hb, if_pos rfl]
                    · rw [holdv]
                      exact hge2
                    · intro p hp
                      exact absurd hp (by simp)
                  · intro _
                    exact ⟨_, rfl⟩
                · intro d hd
                  simp only [Option.some.injEq, Sum.inl.injEq] at hd
                  subst hd
                  constructor
                  · rw [holdv]
                  · refine ⟨sbs, ?_, rfl⟩
                    rw [haddr, hb, if_pos rfl]
              · simp only [hb, if_false, Res.ok.injEq, Prod.mk.injEq] at hok
                rw [← hok.1]
                refine ⟨⟨fun hd => absurd hd.choose_spec (by simp), ?_⟩, ?_⟩
                · rintro ⟨⟨addr, haddr2⟩, _, _⟩
                  rw [haddr, if_neg hb] at haddr2
                  exact absurd haddr2 (by simp)
                · intro d hd
                  exact absurd hd (by simp)

/-- Claim C6 counterexample: the claim as stated is false: a transaction
with an OP_RETURN address and a value no smaller than the slot's old total
that produces no withdrawal nonetheless yields no Deposit — processing
fails with `OldCtipUnspent` because no input spends the stored Ctip. -/
theorem claim6_counterexample :
    parse_op_drivechain ([180, 3, 81] : List Nat) = some 3
    ∧ txAddress fxDepositBadTx = some [1, 2]
    ∧ oldTotalValue fxDepositBadState 3 ≤ 100000
    ∧ handle_m5_m6 fxDepositBadState fxDepositBadTx
        = Res.err (BlockErr.oldCtipUnspent 3) := by
  refine ⟨by decide, by decide, by decide, by decide⟩

/-- Claim C6 witness: the concrete deposit transaction yields a Deposit via
the deposit-iff theorem at a concrete input. -/
theorem claim6_witness : ∃ d, fxDepositResult.1 = some (Sum.inl d) := by
  have hr : fxDepositResult.1
      = some (Sum.inl (Deposit.mk 3 0 ⟨7, 0⟩ ⟨100000, [1, 2]⟩)) := by decide
  refine ((claim6_deposit_iff initialDbs fxDepositResult.2 fxDepositTx
    ⟨100000, [180, 3, 81]⟩ 3 fxDepositResult.1 (by decide) (by decide)
    (by decide)).1).mpr ⟨⟨[1, 2], by decide⟩, by decide, ?_⟩
  intro p h
  rw [hr] at h
  exact absurd h (by simp)

theorem alGet_mem {K V : Type} [DecidableEq K] :
    ∀ (l : List (K × V)) (k : K) (v : V), alGet l k = some v → (k, v) ∈ l := by
  intro l
  induction l with
  | nil =>
      intro k v h
      rw [alGet_nil] at h
      exact absurd h (by simp)
  | cons p rest ih =>
      intro k v h
      rw [alGet_cons] at h
      split at h
      · rename_i hp
        simp only [Option.some.injEq] at h
        subst h
        subst hp
        exact List.mem_cons_self p rest
      · exact List.mem_cons_of_mem p (ih k v h)

theorem alGet_none_of_not_mem {K V : Type} [DecidableEq K] :
    ∀ (l : List (K × V)) (k : K), k ∉ l.map Prod.fst → alGet l k = none := by
  intro l
  induction l with
  | nil => intro k _; rfl
  | cons p rest ih =>
      intro k hk
      rw [List.map_cons] at hk
      rw [alGet_cons, if_neg (fun h => hk (by rw [h]; exact List.mem_cons_self _ _))]
      exact ih k (fun h => hk (List.mem_cons_of_mem _ h))

theorem alGet_of_mem_nodup {K V : Type} [DecidableEq K] :
    ∀ (l : List (K × V)) (k : K) (v : V),
      (l.map Prod.fst).Nodup → (k, v) ∈ l → alGet l k = some v := by
  intro l
  induction l with
  | nil => intro k v _ hm; exact absurd hm (by simp)
  | cons p rest ih =>
      intro k v hnd hm
      rw [List.map_cons, List.nodup_cons] at hnd
      rw [alGet_cons]
      rcases List.mem_cons.mp hm with rfl | hm2
      · simp
      · have hk : ¬ (p.1 = k) := fun hh =>
          hnd.1 (List.mem_map.mpr ⟨(k, v), hm2, hh.symm⟩)
        rw [if_neg hk]
        exact ih k v hnd.2 hm2

theorem alPutAll_nil {K V : Type} [DecidableEq K] (l : List (K × V)) :
    alPutAll l [] = l := rfl

theorem alPutAll_cons {K V : Type} [DecidableEq K] (l : List (K × V))
    (kv : K × V) (ups : List (K × V)) :
    alPutAll l (kv :: ups) = alPutAll (alPut l kv.1 kv.2) ups := rfl

theorem alGet_alPutAll_not_mem {K V : Type} [DecidableEq K] :
    ∀ (ups l : List (K × V)) (k : K), k ∉ ups.map Prod.fst →
      alGet (alPutAll l ups) k = alGet l k := by
  intro ups
  induction ups with
  | nil => intro l k _; rfl
  | cons p rest ih =>
      intro l k hk
      rw [List.map_cons] at hk
      rw [alPutAll_cons, ih _ k (fun h => hk (List.mem_cons_of_mem _ h))]
      exact alGet_alPut_ne l p.1 k p.2
        (fun h => hk (by rw [h]; exact List.mem_cons_self _ _))

theorem alGet_alPutAll_mem_nodup {K V : Type} [DecidableEq K] :
    ∀ (ups l : List (K × V)) (k : K) (v : V),
      (ups.map Prod.fst).Nodup → (k, v) ∈ ups →
      alGet (alPutAll l ups) k = some v := by
  intro ups
  induction ups with
  | nil => intro l k v _ hm; exact absurd hm (by simp)
  | cons p rest ih =>
      intro l k v hnd hm
      rw [List.map_cons, List.nodup_cons] at hnd
      rw [alPutAll_cons]
      rcases List.mem_cons.mp hm with rfl | hm2
      · rw [alGet_alPutAll_not_mem rest _ _ hnd.1]
        exact alGet_alPut_self l k v
      · exact ih _ k v hnd.2 hm2

theorem alGet_alPutAll_cases {K V : Type} [DecidableEq K] :
    ∀ (ups l : List (K × V)) (k : K),
      (k ∉ ups.map Prod.fst ∧ alGet (alPutAll l ups) k = alGet l k)
      ∨ ∃ v, (k, v) ∈ ups ∧ alGet (alPutAll l ups) k = some v := by
  intro ups
  induction ups with
  | nil => intro l k; exact Or.inl ⟨by simp, rfl⟩
  | cons p rest ih =>
      intro l k
      rw [alPutAll_cons]
      rcases ih (alPut l p.1 p.2) k with ⟨hnk, hget⟩ | ⟨v, hv, hget⟩
      · by_cases hk : p.1 = k
        · refine Or.inr ⟨p.2, ?_, ?_⟩
          · subst hk
            exact List.mem_cons_self p rest
          · rw [hget, ← hk]
            exact alGet_alPut_self l p.1 p.2
        · refine Or.inl ⟨?_, ?_⟩
          · rw [List.map_cons]
            intro hmem
            rcases List.mem_cons.mp hmem with h1 | h1
            · exact hk h1.symm
            · exact hnk h1
          · rw [hget]
            exact alGet_alPut_ne l p.1 k p.2 (fun h => hk h.symm)
      · exact Or.inr ⟨v, List.mem_cons_of_mem p hv, hget⟩

theorem mem_failed_insert (f : List (Nat × Nat)) (x y : Nat × Nat) :
    x ∈ failed_insert f y ↔ x ∈ f ∨ x = y := by
  unfold failed_insert
  split
  · rename_i hy
    exact ⟨Or.inl, fun h => h.elim id (fun hx => by rw [hx]; exact hy)⟩
  · simp [List.mem_append]

theorem mem_slot_failed_scan (sn : Nat) (x : Nat × Nat) :
    ∀ (entries : List PendingM6id) (f : List (Nat × Nat)),
      x ∈ slot_failed_scan sn entries f ↔
        x ∈ f ∨ ∃ e, e ∈ entries ∧ x = (sn, e.m6id)
          ∧ WITHDRAWAL_BUNDLE_MAX_AGE < e.vote_count := by
  intro entries
  induction entries with
  | nil =>
      intro f
      simp [slot_failed_scan]
  | cons e rest ih =>
      intro f
      have hunf : slot_failed_scan sn (e :: rest) f
          = slot_failed_scan sn rest
              (if e.vote_count > WITHDRAWAL_BUNDLE_MAX_AGE then
                failed_insert f (sn, e.m6id) else f) := rfl
      rw [hunf, ih]
      by_cases hv : e.vote_count > WITHDRAWAL_BUNDLE_MAX_AGE
      · rw [if_pos hv]
        rw [mem_failed_insert]
        constructor
        · rintro ((hf | hx) | ⟨e2, he2, hx, hv2⟩)
          · exact Or.inl hf
          · exact Or.inr ⟨e, List.mem_cons_self e rest, hx, hv⟩
          · exact Or.inr ⟨e2, List.mem_cons_of_mem e he2, hx, hv2⟩
        · rintro (hf | ⟨e2, he2, hx, hv2⟩)
          · exact Or.inl (Or.inl hf)
          · rcases List.mem_cons.mp he2 with rfl | he2
            · exact Or.inl (Or.inr hx)
            · exact Or.inr ⟨e2, he2, hx, hv2⟩
      · rw [if_neg hv]
        constructor
        · rintro (hf | ⟨e2, he2, hx, hv2⟩)
          · exact Or.inl hf
          · exact Or.inr ⟨e2, List.mem_cons_of_mem e he2, hx, hv2⟩
        · rintro (hf | ⟨e2, he2, hx, hv2⟩)
          · exact Or.inl hf
          · rcases List.mem_cons.mp he2 with rfl | he2
            · exact absurd hv2 hv
            · exact Or.inr ⟨e2, he2, hx, hv2⟩

theorem mem_sweep_fold (x : Nat × Nat) :
    ∀ (rows : List (Nat × List PendingM6id))
      (acc : List (Nat × Nat) × List (Nat × List PendingM6id)),
      x ∈ (rows.foldl sweep_step acc).1 ↔
        x ∈ acc.1 ∨ ∃ kv, kv ∈ rows ∧ ∃ e, e ∈ kv.2 ∧ x = (kv.1, e.m6id)
          ∧ WITHDRAWAL_BUNDLE_MAX_AGE < e.vote_count := by
  intro rows
  induction rows with
  | nil =>
      intro acc
      simp
  | cons kv rest ih =>
      intro acc
      rw [List.foldl_cons, ih]
      have hfst : (sweep_step acc kv).1 = slot_failed_scan kv.1 kv.2 acc.1 := rfl
      rw [hfst, mem_slot_failed_scan]
      constructor
      · rintro ((hf | ⟨e, he, hx, hv⟩) | ⟨kv2, hkv2, e, he, hx, hv⟩)
        · exact Or.inl hf
        · exact Or.inr ⟨kv, List.mem_cons_self kv rest, e, he, hx, hv⟩
        · exact Or.inr ⟨kv2, List.mem_cons_of_mem kv hkv2, e, he, hx, hv⟩
      · rintro (hf | ⟨kv2, hkv2, e, he, hx, hv⟩)
        · exact Or.inl (Or.inl hf)
        · rcases List.mem_cons.mp hkv2 with rfl | hkv2
          · exact Or.inl (Or.inr ⟨e, he, hx, hv⟩)
          · exact Or.inr ⟨kv2, hkv2, e, he, hx, hv⟩

theorem sweep_fold_keys :
    ∀ (rows : List (Nat × List PendingM6id))
      (acc : List (Nat × Nat) × List (Nat × List PendingM6id)),
      (rows.foldl sweep_step acc).2.map Prod.fst
        = acc.2.map Prod.fst ++ rows.map Prod.fst := by
  intro rows
  induction rows with
  | nil => intro acc; simp
  | cons kv rest ih =>
      intro acc
      rw [List.foldl_cons, ih]
      simp [sweep_step]

theorem sweep_fold_rows_clean :
    ∀ (rows : List (Nat × List PendingM6id))
      (acc : List (Nat × Nat) × List (Nat × List PendingM6id)),
      (∀ p, p ∈ acc.2 → ∀ e, e ∈ p.2 → e.vote_count ≤ WITHDRAWAL_BUNDLE_MAX_AGE) →
      ∀ p, p ∈ (rows.foldl sweep_step acc).2 → ∀ e, e ∈ p.2 →
        e.vote_count ≤ WITHDRAWAL_BUNDLE_MAX_AGE := by
  intro rows
  induction rows with
  | nil =>
      intro acc hacc p hp e he
      exact hacc p hp e he
  | cons kv rest ih =>
      intro acc hacc p hp e he
      rw [List.foldl_cons] at hp
      refine ih _ ?_ p hp e he
      intro q hq f hf
      simp only [sweep_step] at hq
      rcases List.mem_append.mp hq with hq2 | hq2
      · exact hacc q hq2 f hf
      · have hq3 : q = (kv.1, kv.2.filter
            (fun e => decide ((kv.1, e.m6id) ∉ slot_failed_scan kv.1 kv.2 acc.1))) := by
          simpa using hq2
        by_contra hgt
        push_neg at hgt
        rw [hq3] at hf
        have hmem := List.mem_filter.mp hf
        have hin : (kv.1, f.m6id) ∈ slot_failed_scan kv.1 kv.2 acc.1 :=
          (mem_slot_failed_scan kv.1 _ kv.2 acc.1).mpr (Or.inr ⟨f, hmem.1, rfl, hgt⟩)
        have hnotin := hmem.2
        simp only [decide_eq_true_eq] at hnotin
        exact hnotin hin

theorem sweep_fold_rows_eq :
    ∀ (rows : List (Nat × List PendingM6id))
      (acc : List (Nat × Nat) × List (Nat × List PendingM6id)),
      (rows.map Prod.fst).Nodup →
      (∀ p, p ∈ acc.1 → p.1 ∉ rows.map Prod.fst) →
      (rows.foldl sweep_step acc).2
        = acc.2 ++ rows.map (fun kv =>
            (kv.1, kv.2.filter (fun e => decide (¬ ∃ e2, e2 ∈ kv.2
              ∧ e2.m6id = e.m6id
              ∧ WITHDRAWAL_BUNDLE_MAX_AGE < e2.vote_count)))) := by
  intro rows
  induction rows with
  | nil =>
      intro acc _ _
      simp
  | cons kv rest ih =>
      intro acc hnd hdisj
      rw [List.map_cons, List.nodup_cons] at hnd
      rw [List.foldl_cons]
      have hfilter : kv.2.filter
            (fun e => decide ((kv.1, e.m6id) ∉ slot_failed_scan kv.1 kv.2 acc.1))
          = kv.2.filter (fun e => decide (¬ ∃ e2, e2 ∈ kv.2
              ∧ e2.m6id = e.m6id
              ∧ WITHDRAWAL_BUNDLE_MAX_AGE < e2.vote_count)) := by
        refine List.filter_congr ?_
        intro e he
        have hiff : ((kv.1, e.m6id) ∉ slot_failed_scan kv.1 kv.2 acc.1)
            ↔ ¬ ∃ e2, e2 ∈ kv.2 ∧ e2.m6id = e.m6id
                ∧ WITHDRAWAL_BUNDLE_MAX_AGE < e2.vote_count := by
          rw [mem_slot_failed_scan]
          constructor
          · rintro hn ⟨e2, he2, hid, hv⟩
            exact hn (Or.inr ⟨e2, he2, by rw [hid], hv⟩)
          · rintro hn (hacc1 | ⟨e2, he2, hpair, hv⟩)
            · exact hdisj _ hacc1 (List.mem_cons_self _ _)
            · refine hn ⟨e2, he2, ?_, hv⟩
              have hsnd := congrArg Prod.snd hpair
              simpa using hsnd.symm
        exact decide_eq_decide.mpr hiff
      have hkept : (sweep_step acc kv).2 = acc.2 ++ [(kv.1,
          kv.2.filter (fun e => decide (¬ ∃ e2, e2 ∈ kv.2
            ∧ e2.m6id = e.m6id
            ∧ WITHDRAWAL_BUNDLE_MAX_AGE < e2.vote_count)))] := by
        simp only [sweep_step]
        rw [hfilter]
      have hdisj2 : ∀ p, p ∈ (sweep_step acc kv).1 → p.1 ∉ rest.map Prod.fst := by
        intro p hp
        have hp2 : p ∈ slot_failed_scan kv.1 kv.2 acc.1 := hp
        rcases (mem_slot_failed_scan kv.1 p kv.2 acc.1).mp hp2 with
          hp3 | ⟨e, _, rfl, _⟩
        · intro hmem
          exact hdisj p hp3 (List.mem_cons_of_mem _ hmem)
        · exact hnd.1
      rw [ih (sweep_step acc kv) hnd.2 hdisj2, hkept]
      simp

theorem foldl_pending_write :
    ∀ (ups : List (Nat × List PendingM6id)) (st : Dbs),
      (ups.foldl
        (fun st kv => { st with pending_m6ids := alPut st.pending_m6ids kv.1 kv.2 })
        st).pending_m6ids
        = alPutAll st.pending_m6ids ups := by
  intro ups
  induction ups with
  | nil => intro st; rfl
  | cons kv rest ih =>
      intro st
      rw [List.foldl_cons, alPutAll_cons]
      exact ih { st with pending_m6ids := alPut st.pending_m6ids kv.1 kv.2 }

theorem handle_failed_m6ids_pending (s : Dbs) :
    (handle_failed_m6ids s).2.pending_m6ids
      = alPutAll s.pending_m6ids (s.pending_m6ids.foldl sweep_step ([], [])).2 := by
  simp only [handle_failed_m6ids]
  exact foldl_pending_write _ s

theorem handle_failed_m6ids_failed_iff (s : Dbs) (sn m : Nat)
    (hnd : (s.pending_m6ids.map Prod.fst).Nodup) :
    (sn, m) ∈ (handle_failed_m6ids s).1 ↔
      ∃ e, e ∈ pendingD s sn ∧ e.m6id = m
        ∧ WITHDRAWAL_BUNDLE_MAX_AGE < e.vote_count := by
  have h1 : (handle_failed_m6ids s).1
      = (s.pending_m6ids.foldl sweep_step ([], [])).1 := rfl
  rw [h1, mem_sweep_fold]
  simp only [List.not_mem_nil, false_or]
  constructor
  · rintro ⟨kv, hkv, e, he, hpair, hv⟩
    have hsn : kv.1 = sn := (congrArg Prod.fst hpair).symm
    have hm : e.m6id = m := by
      have hsnd := congrArg Prod.snd hpair
      simpa using hsnd.symm
    have hget : alGet s.pending_m6ids sn = some kv.2 := by
      rw [← hsn]
      exact alGet_of_mem_nodup s.pending_m6ids kv.1 kv.2 hnd hkv
    refine ⟨e, ?_, hm, hv⟩
    simp only [pendingD, hget, Option.getD_some]
    exact he
  · rintro ⟨e, he, hm, hv⟩
    simp only [pendingD] at he
    rcases hget : alGet s.pending_m6ids sn with _ | l0
    · rw [hget] at he
      simp at he
    · rw [hget] at he
      simp only [Option.getD_some] at he
      exact ⟨(sn, l0), alGet_mem _ _ _ hget, e, he, by rw [hm], hv⟩

theorem handle_failed_m6ids_rows (s : Dbs) (sn : Nat)
    (hnd : (s.pending_m6ids.map Prod.fst).Nodup) :
    pendingD (handle_failed_m6ids s).2 sn =
      (pendingD s sn).filter
        (fun e => decide (¬ ∃ e2, e2 ∈ pendingD s sn ∧ e2.m6id = e.m6id
          ∧ WITHDRAWAL_BUNDLE_MAX_AGE < e2.vote_count)) := by
  have hrows := sweep_fold_rows_eq s.pending_m6ids ([], []) hnd
    (by intro p hp; simp at hp)
  rw [List.nil_append] at hrows
  have hpend := handle_failed_m6ids_pending s
  rw [hrows] at hpend
  have hkeys : ((s.pending_m6ids.map (fun kv =>
      (kv.1, kv.2.filter (fun e => decide (¬ ∃ e2, e2 ∈ kv.2
        ∧ e2.m6id = e.m6id
        ∧ WITHDRAWAL_BUNDLE_MAX_AGE < e2.vote_count))))).map Prod.fst)
      = s.pending_m6ids.map Prod.fst := by
    rw [List.map_map]
    rfl
  rcases hget : alGet s.pending_m6ids sn with _ | l0
  · have hnk : sn ∉ s.pending_m6ids.map Prod.fst := by
      intro hk
      rcases List.mem_map.mp hk with ⟨kv, hkv, hfst⟩
      have hsome := alGet_of_mem_nodup s.pending_m6ids sn kv.2 hnd
        (by rw [← hfst]; exact hkv)
      rw [hget] at hsome
      exact absurd hsome (by simp)
    have hnk2 : sn ∉ ((s.pending_m6ids.map (fun kv =>
        (kv.1, kv.2.filter (fun e => decide (¬ ∃ e2, e2 ∈ kv.2
          ∧ e2.m6id = e.m6id
          ∧ WITHDRAWAL_BUNDLE_MAX_AGE < e2.vote_count))))).map Prod.fst) := by
      rw [hkeys]
      exact hnk
    simp only [pendingD, hpend]
    rw [alGet_alPutAll_not_mem _ _ _ hnk2]
    simp only [hget, Option.getD_none, List.filter_nil]
  · have hmemrow : (sn, l0) ∈ s.pending_m6ids := alGet_mem _ _ _ hget
    have hnd2 : ((s.pending_m6ids.map (fun kv =>
        (kv.1, kv.2.filter (fun e => decide (¬ ∃ e2, e2 ∈ kv.2
          ∧ e2.m6id = e.m6id
          ∧ WITHDRAWAL_BUNDLE_MAX_AGE < e2.vote_count))))).map Prod.fst).Nodup := by
      rw [hkeys]
      exact hnd
    have hmem2 : (sn, l0.filter (fun e => decide (¬ ∃ e2, e2 ∈ l0
        ∧ e2.m6id = e.m6id
        ∧ WITHDRAWAL_BUNDLE_MAX_AGE < e2.vote_count)))
        ∈ s.pending_m6ids.map (fun kv =>
          (kv.1, kv.2.filter (fun e => decide (¬ ∃ e2, e2 ∈ kv.2
            ∧ e2.m6id = e.m6id
            ∧ WITHDRAWAL_BUNDLE_MAX_AGE < e2.vote_count)))) :=
      List.mem_map.mpr ⟨(sn, l0), hmemrow, rfl⟩
    simp only [pendingD, hpend]
    rw [alGet_alPutAll_mem_nodup _ _ _ _ hnd2 hmem2]
    simp only [hget, Option.getD_some]

theorem handle_failed_m6ids_clean (s : Dbs) :
    ∀ sn e, e ∈ pendingD (handle_failed_m6ids s).2 sn →
      e.vote_count ≤ WITHDRAWAL_BUNDLE_MAX_AGE := by
  intro sn e he
  have hpend := handle_failed_m6ids_pending s
  simp only [pendingD, hpend] at he
  rcases alGet_alPutAll_cases (s.pending_m6ids.foldl sweep_step ([], [])).2
      s.pending_m6ids sn with ⟨hnk, hcase⟩ | ⟨v, hv, hcase⟩
  · rw [sweep_fold_keys s.pending_m6ids ([], [])] at hnk
    simp only [List.map_nil, List.nil_append] at hnk
    rw [hcase, alGet_none_of_not_mem _ _ hnk] at he
    simp at he
  · rw [hcase] at he
    simp only [Option.getD_some] at he
    exact sweep_fold_rows_clean s.pending_m6ids ([], [])
      (by intro p hp; simp at hp) (sn, v) hv e he

theorem handle_m5_m6_pending_subset (s s' : Dbs) (tx : Transaction)
    (r : Option (Sum Deposit (Nat × Nat)))
    (hok : handle_m5_m6 s tx = .ok (r, s')) :
    ∀ n e, e ∈ pendingD s' n → e ∈ pendingD s n := by
  rcases handle_m5_m6_ok_cases s s' tx r hok with ⟨o0, _, _, heq, _⟩ |
    ⟨o0, sn, s1, u, _, _, _, _, _, _, _, hsub, heq⟩
  · intro n e he
    rw [heq] at he
    exact he
  · intro n e he
    rw [heq] at he
    exact hsub n e he

theorem connect_txs_pending_subset (comm : List (Nat × Nat)) (prev : Nat) :
    ∀ (txs : List Transaction) (acc acc' : TxsAcc),
      connect_txs comm prev acc txs = .ok acc' →
      ∀ n e, e ∈ pendingD acc'.dbs n → e ∈ pendingD acc.dbs n := by
  intro txs
  induction txs with
  | nil =>
      intro acc acc' hok n e he
      unfold connect_txs at hok
      simp only [LoopRes.ok.injEq] at hok
      rw [hok]
      exact he
  | cons tx rest ih =>
      intro acc acc' hok n e he
      unfold connect_txs at hok
      split at hok
      · exact absurd hok (by simp)
      · exact absurd hok (by simp)
      · rename_i res s1 hm5
        have hsub := handle_m5_m6_pending_subset acc.dbs s1 tx res hm5
        split at hok
        all_goals {
          split at hok
          · exact absurd hok (by simp)
          · exact absurd hok (by simp)
          · exact hsub n e (ih _ acc' hok n e he)
        }

theorem connect_txs_events_mono (comm : List (Nat × Nat)) (prev : Nat) :
    ∀ (txs : List Transaction) (acc acc' : TxsAcc),
      connect_txs comm prev acc txs = .ok acc' →
      ∀ ev, ev ∈ acc.withdrawal_bundle_events →
        ev ∈ acc'.withdrawal_bundle_events := by
  intro txs
  induction txs with
  | nil =>
      intro acc acc' hok ev hev
      unfold connect_txs at hok
      simp only [LoopRes.ok.injEq] at hok
      rw [← hok]
      exact hev
  | cons tx rest ih =>
      intro acc acc' hok ev hev
      unfold connect_txs at hok
      split at hok
      · exact absurd hok (by simp)
      · exact absurd hok (by simp)
      · rename_i res s1 hm5
        split at hok
        all_goals {
          split at hok
          · exact absurd hok (by simp)
          · exact absurd hok (by simp)
          · refine ih _ acc' hok ev ?_
            first
            | exact hev
            | exact List.mem_append_left _ hev
        }

theorem connect_block_sweep (s s' : Dbs) (b : Block) (h : Nat)
    (hok : connect_block s b h = .ok s') :
    (∀ sn e, e ∈ pendingD s' sn → e.vote_count ≤ WITHDRAWAL_BUNDLE_MAX_AGE)
    ∧ ∃ bi, alGet s'.block_info b.block_hash = some bi
        ∧ ∀ p, p ∈ connectFailedSet s b h →
            (⟨p.1, p.2, WithdrawalBundleEventKind.failed⟩ : WithdrawalBundleEvent)
              ∈ bi.withdrawal_bundle_events := by
  simp only [connect_block] at hok
  split at hok
  · exact absurd hok (by simp)
  · rename_i coinbase hcoin
    split at hok
    · exact absurd hok (by simp)
    · exact absurd hok (by simp)
    · rename_i acc hcb
      split at hok
      · exact absurd hok (by simp)
      · exact absurd hok (by simp)
      · rename_i txAcc htxs
        have hclean : ∀ sn e, e ∈ pendingD txAcc.dbs sn →
            e.vote_count ≤ WITHDRAWAL_BUNDLE_MAX_AGE := by
          intro sn e he
          have hsub := connect_txs_pending_subset _ _ _ _ txAcc htxs sn e he
          exact handle_failed_m6ids_clean _ sn e hsub
        have hev : ∀ p, p ∈ (handle_failed_m6ids
            (handle_failed_sidechain_proposals acc.dbs h)).1 →
            (⟨p.1, p.2, WithdrawalBundleEventKind.failed⟩ : WithdrawalBundleEvent)
              ∈ txAcc.withdrawal_bundle_events := by
          intro p hp
          refine connect_txs_events_mono _ _ _ _ txAcc htxs _ ?_
          exact List.mem_append_right _ (List.mem_map.mpr ⟨p, hp, rfl⟩)
        have hfs : connectFailedSet s b h = (handle_failed_m6ids
            (handle_failed_sidechain_proposals acc.dbs h)).1 := by
          simp only [connectFailedSet, hcoin, hcb]
        split at hok
        · exact absurd hok (by simp)
        · exact absurd hok (by simp)
        · rename_i w0 heq
          split at hok
          · exact absurd hok (by simp)
          · rename_i w hw
            split at hok
            · simp only [LoopRes.ok.injEq] at hok
              subst hok
              refine ⟨fun sn e he => hclean sn e he,
                ⟨acc.accepted_bmm_requests, coinbase.txid, txAcc.deposits,
                  acc.sidechain_proposals, txAcc.withdrawal_bundle_events⟩,
                alGet_alPut_self _ _ _, ?_⟩
              intro p hp
              rw [hfs] at hp
              exact hev p hp
            · simp only [LoopRes.ok.injEq] at hok
              subst hok
              refine ⟨fun sn e he => hclean sn e he,
                ⟨acc.accepted_bmm_requests, coinbase.txid, txAcc.deposits,
                  acc.sidechain_proposals, txAcc.withdrawal_bundle_events⟩,
                alGet_alPut_self _ _ _, ?_⟩
              intro p hp
              rw [hfs] at hp
              exact hev p hp

/-- C7: the bundle expiry sweep, as implemented.  (i) Under unique pending
rows, the failed set contains `(slot, m6id)` exactly when some entry of that
slot's pending list carries that m6id with a vote count above
`WITHDRAWAL_BUNDLE_MAX_AGE`.  (ii) The rewritten pending list of every slot
keeps exactly the entries whose m6id is NOT shared with any over-age entry
of the same slot — so an under-age entry that shares its m6id with an
expired one is removed as well, which is where the claim's "exactly those
pending M6IDs whose vote_count exceeds WITHDRAWAL_BUNDLE_MAX_AGE" fails
(see the counterexample).  (iii) After any successful `connect_block`, no
pending entry of any slot has a vote count above the max age, and the
stored `BlockInfo` of the connected block contains a `Failed`
withdrawal-bundle event for every pair of the sweep's failed set. -/
theorem claim7_bundle_expiry :
    (∀ (s : Dbs) (sn m : Nat), (s.pending_m6ids.map Prod.fst).Nodup →
       ((sn, m) ∈ (handle_failed_m6ids s).1 ↔
         ∃ e, e ∈ pendingD s sn ∧ e.m6id = m
           ∧ WITHDRAWAL_BUNDLE_MAX_AGE < e.vote_count))
    ∧ (∀ (s : Dbs) (sn : Nat), (s.pending_m6ids.map Prod.fst).Nodup →
         pendingD (handle_failed_m6ids s).2 sn =
           (pendingD s sn).filter
             (fun e => decide (¬ ∃ e2, e2 ∈ pendingD s sn ∧ e2.m6id = e.m6id
               ∧ WITHDRAWAL_BUNDLE_MAX_AGE < e2.vote_count)))
    ∧ (∀ (s s' : Dbs) (b : Block) (h : Nat), connect_block s b h = .ok s' →
         (∀ sn e, e ∈ pendingD s' sn → e.vote_count ≤ WITHDRAWAL_BUNDLE_MAX_AGE)
         ∧ ∃ bi, alGet s'.block_info b.block_hash = some bi
             ∧ ∀ p, p ∈ connectFailedSet s b h →
                 (⟨p.1, p.2, WithdrawalBundleEventKind.failed⟩ : WithdrawalBundleEvent)
                   ∈ bi.withdrawal_bundle_events) :=
  ⟨fun s sn m hnd => handle_failed_m6ids_failed_iff s sn m hnd,
   fun s sn hnd => handle_failed_m6ids_rows s sn hnd,
   fun s s' b h hok => connect_block_sweep s s' b h hok⟩

/-- C7 witness: on a store whose slot 42 holds a single expired entry
(m6id 7, vote count 11), the failed-set characterization puts `(42, 7)` in
the sweep's failed set; and on `fxDupState` the per-slot characterization
evaluates the rewritten pending list of slot 1 to `[]`. -/
theorem claim7_witness :
    (42, 7) ∈ (handle_failed_m6ids
      { initialDbs with pending_m6ids := [(42, [⟨7, 11⟩])] }).1
    ∧ pendingD (handle_failed_m6ids fxDupState).2 1 = [] := by
  constructor
  · exact (claim7_bundle_expiry.1
      { initialDbs with pending_m6ids := [(42, [⟨7, 11⟩])] } 42 7
      (by decide)).mpr ⟨⟨7, 11⟩, by decide, rfl, by decide⟩
  · rw [claim7_bundle_expiry.2.1 fxDupState 1 (by decide)]
    decide

/-- C7 counterexample to the literal claim: in `fxDupState` slot 1 holds two
entries with the same m6id 5, one expired (vote count 11) and one fresh
(vote count 3 ≤ WITHDRAWAL_BUNDLE_MAX_AGE).  The sweep records a single
failed pair `(1, 5)` and removes BOTH entries, so the fresh entry — which
the claim says stays — is gone, and only one `Failed` pair is produced for
two removed entries. -/
theorem claim7_counterexample :
    (⟨5, 3⟩ : PendingM6id) ∈ pendingD fxDupState 1
    ∧ (⟨5, 3⟩ : PendingM6id).vote_count ≤ WITHDRAWAL_BUNDLE_MAX_AGE
    ∧ (handle_failed_m6ids fxDupState).1 = [(1, 5)]
    ∧ pendingD (handle_failed_m6ids fxDupState).2 1 = [] := by
  decide

end Bip300Enforcer
